import Mathlib

/-!
Verification development for the path / URL canonicalization engines of
`dlls/kernelbase/path.c` (Wine's kernelbase path library).

Strings are modelled as lists of UTF-16 code units (`List Nat`); the C
functions operate on NUL-terminated `WCHAR` buffers, so `0` plays the role
of the terminator and reads beyond the end of a list return `0` (`List.getD`),
matching reads of the terminator / zero-initialized buffer cells.
`PathAllocCanonicalize`'s work buffer is modelled as a fixed-length list of
cells (`LocalAlloc LMEM_ZEROINIT`), including the cells beyond the current
write cursor, because the C code can re-read stale cells (e.g. the
`buffer[2] != '\\'` test after a non-zeroing `dst--`).

The wide-character classification functions (`isalphaW` …) are modelled on
their ASCII fragment; the Unicode tables live outside this repository
(wine/unicode.h) and every concrete input used below is ASCII.
-/

/-- Code unit of a character (UTF-16 unit as a natural number). -/
def ch (c : Char) : Nat := c.toNat

/-- A string literal as a list of UTF-16 code units. -/
def wstr (s : String) : List Nat := s.toList.map Char.toNat

/-- ASCII fragment of Wine's `isalphaW`. -/
def isalphaW (c : Nat) : Bool := (65 ≤ c && c ≤ 90) || (97 ≤ c && c ≤ 122)

/-- ASCII fragment of Wine's `isdigitW`. -/
def isdigitW (c : Nat) : Bool := 48 ≤ c && c ≤ 57

/-- ASCII fragment of Wine's `isalnumW`. -/
def isalnumW (c : Nat) : Bool := isalphaW c || isdigitW c

/-- ASCII fragment of Wine's `islowerW`. -/
def islowerW (c : Nat) : Bool := 97 ≤ c && c ≤ 122

/-- ASCII fragment of Wine's `isxdigitW`. -/
def isxdigitW (c : Nat) : Bool :=
  isdigitW c || (65 ≤ c && c ≤ 70) || (97 ≤ c && c ≤ 102)

/-- ASCII fragment of Wine's `toupperW`. -/
def toupperW (c : Nat) : Nat := if 97 ≤ c && c ≤ 122 then c - 32 else c

/-- Length of the NUL-terminated string held in a list (Wine `strlenW`). -/
def strlenW (s : List Nat) : Nat := (s.takeWhile (fun c => c ≠ 0)).length

/-- The NUL-terminated string held in a list (used to model `lstrcpyW` etc.). -/
def strTrunc (s : List Nat) : List Nat := s.takeWhile (fun c => c ≠ 0)

/-- Case-insensitive comparison of `s` (from unit `i` on) with a pattern
(`strncmpiW` stops at a mismatch or at the NUL of `s`, so reading a missing
unit as `0` is exact). -/
def strncmpiAt (s : List Nat) : Nat → List Nat → Bool
  | _, [] => true
  | i, p :: ps => (toupperW (s.getD i 0) = toupperW p) && strncmpiAt s (i + 1) ps

/-- Case-insensitive `n`-unit comparison-for-equality against a pattern
(`!strncmpiW(s, pat, pat.length)`). -/
def strncmpiW_eq (s pat : List Nat) : Bool := strncmpiAt s 0 pat

/-- Case-sensitive comparison of `s` (from unit `i` on) with a pattern. -/
def strncmpAt (s : List Nat) : Nat → List Nat → Bool
  | _, [] => true
  | i, p :: ps => (s.getD i 0 = p) && strncmpAt s (i + 1) ps

/-- Case-sensitive `n`-unit comparison-for-equality against a pattern
(`!strncmpW(s, pat, pat.length)` / the guarded `memcmp` uses). -/
def strncmpW_eq (s pat : List Nat) : Bool := strncmpAt s 0 pat

/-- `is_prefixed_unc`: `\\?\UNC\` prefix, case-insensitive. -/
def is_prefixed_unc (s : List Nat) : Bool :=
  strncmpiW_eq s (wstr "\\\\?\\UNC\\")

/-- `is_prefixed_disk`: `\\?\X:` prefix (`\\?\` case-sensitive, letter, colon). -/
def is_prefixed_disk (s : List Nat) : Bool :=
  strncmpW_eq s (wstr "\\\\?\\") && isalphaW (s.getD 4 0) && s.getD 5 0 = 58

/-- One position of the `Volume{...}` GUID check of `is_prefixed_volume`:
index `i` counts from the `{`. -/
def volumeGuidChar (c : Nat) (i : Nat) : Bool :=
  if i = 0 then c = 123
  else if i = 9 || i = 14 || i = 19 || i = 24 then c = 45
  else if i = 37 then c = 125
  else isalnumW c

/-- `is_prefixed_volume`: `\\?\Volume{GUID}` prefix. -/
def is_prefixed_volume (s : List Nat) : Bool :=
  strncmpiW_eq s (wstr "\\\\?\\Volume")
    && (List.range 38).all (fun i => volumeGuidChar (s.getD (10 + i) 0) i)

/-- `get_root_end`: offset of the last code unit of the path's root, if any. -/
def get_root_end (path : List Nat) : Option Nat :=
  if is_prefixed_volume path then
    (if path.getD 48 0 = 92 then some 48 else some 47)
  else if is_prefixed_unc path then some 7
  else if is_prefixed_disk path then
    (if path.getD 6 0 = 92 then some 6 else some 5)
  else if path.getD 0 0 = 92 && path.getD 1 0 = 92 then some 1
  else if path.getD 0 0 = 92 then some 0
  else if isalphaW (path.getD 0 0) && path.getD 1 0 = 58 then
    (if path.getD 2 0 = 92 then some 2 else some 1)
  else none

/-- Write the units `xs` into the buffer `buf` starting at cell `i`
(`memcpy` / `strcpyW` target semantics); the buffer keeps its length. -/
def writeList (buf : List Nat) (i : Nat) (xs : List Nat) : List Nat :=
  buf.take i ++ (xs ++ buf.drop (i + xs.length)).take (buf.length - i)

/-- Result statuses of the `PathCch` helpers (`S_OK` / `S_FALSE` /
`E_INVALIDARG` / `STRSAFE_E_INSUFFICIENT_BUFFER`). -/
inductive PathRes where
  | sOk
  | sFalse
  | invalid
  | insufficient
deriving DecidableEq, Repr

/-- `PathCchStripPrefix` over a buffer (`size` in code units): strips
`\\?\UNC\` to `\\` or `\\?\X:` to `X:`, in place via `strcpyW`. -/
def pathCchStripPrefixW (buf : List Nat) (size : Nat) : PathRes × List Nat :=
  if size = 0 || size > 32768 then (.invalid, buf)
  else if is_prefixed_unc buf then
    if size < strlenW (buf.drop 8) + 3 then (.invalid, buf)
    else (.sOk, writeList buf 2 (strTrunc (buf.drop 8) ++ [0]))
  else if is_prefixed_disk buf then
    if size < strlenW (buf.drop 4) + 1 then (.invalid, buf)
    else (.sOk, writeList buf 0 (strTrunc (buf.drop 4) ++ [0]))
  else (.sFalse, buf)

/-- `PathCchAddBackslashEx` (endptr/remaining dropped): appends `\` when the
string is nonempty and does not already end in `\`, if the capacity allows. -/
def pathCchAddBackslashW (s : List Nat) (size : Nat) : PathRes × List Nat :=
  let length := strlenW s
  let s0 := strTrunc s
  let needs := size ≠ 0 && length ≠ 0 && s0.getD (length - 1) 0 ≠ 92
  if length ≥ (if needs then size - 1 else size) then (.insufficient, s0)
  else if !needs then (.sFalse, s0)
  else (.sOk, s0 ++ [92])

/-- `get_next_segment` from offset `i`: offset just past the next `\`
(and whether a `\` was found before the terminator). -/
def nextSegmentW (s : List Nat) (i : Nat) : Nat × Bool :=
  let rest := (s.drop i).takeWhile (fun c => c ≠ 0)
  match rest.findIdx? (fun c => c = 92) with
  | some j => (i + j + 1, true)
  | none => (i + rest.length, false)

/-- `PathCchSkipRoot`: offset just past the root (including the UNC
server/share segments), or `none` (`E_INVALIDARG`). -/
def pathCchSkipRootW (path : List Nat) : Option Nat :=
  if path.getD 0 0 = 0 then none
  else if strncmpiW_eq path (wstr "\\\\?") && !is_prefixed_volume path
      && !is_prefixed_unc path && !is_prefixed_disk path then none
  else
    match get_root_end path with
    | none => none
    | some re =>
      let k := re + 1
      if is_prefixed_unc path then
        some (nextSegmentW path (nextSegmentW path k).1).1
      else if path.getD 0 0 = 92 && path.getD 1 0 = 92 && path.getD 2 0 ≠ 63 then
        let k1 := (nextSegmentW path k).1
        if path.getD k1 0 ≠ 92 then some (nextSegmentW path k1).1 else some k1
      else some k

/-- `PathCchStripToRoot`: truncates a path to its root. -/
def pathCchStripToRootW (path : List Nat) (size : Nat) : PathRes × List Nat :=
  if path.getD 0 0 = 0 || size = 0 || size > 32768 then (.invalid, path)
  else
    let isUnc := is_prefixed_unc path
    if isUnc || (path.getD 0 0 = 92 && path.getD 1 0 = 92 && path.getD 2 0 ≠ 63) then
      let r0 := if isUnc then 8 else 3
      let (r1, ok1) := nextSegmentW path r0
      if !ok1 then (.sFalse, path)
      else
        let (r2, ok2) := nextSegmentW path r1
        if !ok2 then (.sFalse, path)
        else if r2 ≥ size then (.invalid, path)
        else (.sOk, path.take (r2 - 1))
    else
      match pathCchSkipRootW path with
      | some re =>
        if re ≥ size then (.invalid, path)
        else if path.getD re 0 = 0 then (.sFalse, path)
        else (.sOk, path.take re)
      | none => (.invalid, path)

/-- `PathAllocCanonicalize`'s flag word, one field per `PATHCCH_*` bit. -/
structure PathFlags where
  allowLong : Bool := false
  forceEnable : Bool := false
  forceDisable : Bool := false
  doNotNormalize : Bool := false
  ensureExtended : Bool := false
  ensureTrailing : Bool := false
deriving DecidableEq, Repr

/-- The flag combinations `PathAllocCanonicalize` rejects with `E_INVALIDARG`. -/
def pacBadFlags (f : PathFlags) : Bool :=
  (f.forceEnable && f.forceDisable)
    || ((f.forceEnable || f.forceDisable) && !f.allowLong)
    || (f.ensureExtended && f.allowLong)

/-- Error codes returned by the allocating path functions. -/
inductive PathErr where
  | invalidArg
  | nameTooLong
deriving DecidableEq, Repr

/-- The backward-deletion loop of the `..` case: zero cells downward until a
`\` is deleted or the start of the buffer is reached. -/
def backtrackZero (buf : List Nat) (dst : Nat) : List Nat × Nat :=
  match dst with
  | 0 => (buf, 0)
  | d + 1 =>
    if buf.getD d 0 = 92 then (buf.set d 0, d)
    else backtrackZero (buf.set d 0) d

/-- The segment-copy loop of `PathAllocCanonicalize` (fuelled; one unit of
fuel per iteration, every iteration consumes at least one source unit).
`buf` is the whole work buffer, `dst` the write cursor, `re` the offset of
the root-end pointer. -/
def canonLoop (flags : PathFlags) :
    Nat → List Nat → List Nat → Nat → Option Nat → List Nat × Nat
  | 0, _, buf, dst, _ => (buf, dst)
  | _ + 1, [], buf, dst, _ => (buf, dst)
  | fuel + 1, c :: rest, buf, dst, re =>
    if c = 0 then (buf, dst)
    else if c = 46 then
      if rest.getD 0 0 = 46 then
        -- "..": keep one '.' after '*'
        if dst > 0 && buf.getD (dst - 1) 0 = 42 then
          canonLoop flags fuel rest (buf.set dst 46) (dst + 1) re
        -- keep ".." under DO_NOT_NORMALIZE or in the a..b form
        else if dst > 0 &&
            ((flags.doNotNormalize && buf.getD (dst - 1) 0 ≠ 92)
              || (buf.getD (dst - 1) 0 ≠ 92 && (rest.drop 1).getD 0 0 ≠ 92
                    && (rest.drop 1).getD 0 0 ≠ 0)) then
          canonLoop flags fuel (rest.drop 1) ((buf.set dst 46).set (dst + 1) 46)
            (dst + 2) re
        else
          let rest2 := rest.drop 1
          let removed := dst > 0 && buf.getD (dst - 1) 0 = 92
              && (re.isNone || dst - 1 > re.getD 0)
          let st :=
            if removed then
              let bt := backtrackZero (buf.set (dst - 1) 0) (dst - 1)
              (bt.1, bt.2, rest2)
            else if rest2.getD 0 0 = 92 then (buf, dst, rest2.drop 1)
            else (buf, dst, rest2)
          let fix := isalphaW (st.1.getD 0 0) && st.1.getD 1 0 = 58
              && st.1.getD 2 0 ≠ 92
          let bufB := if fix then st.1.set 2 92 else st.1
          let dstB := if fix then 3 else st.2.1
          let reB := if fix then some 2 else re
          let srcB := if fix && st.2.2.getD 0 0 = 92 then st.2.2.drop 1 else st.2.2
          canonLoop flags fuel srcB bufB dstB reB
      else
        -- single "."
        if dst > 0 &&
            ((flags.doNotNormalize && buf.getD (dst - 1) 0 ≠ 92)
              || (buf.getD (dst - 1) 0 ≠ 92 && rest.getD 0 0 ≠ 92
                    && rest.getD 0 0 ≠ 0)
              || buf.getD (dst - 1) 0 = 42) then
          canonLoop flags fuel rest (buf.set dst 46) (dst + 1) re
        else
          let st :=
            if dst > 0 && buf.getD (dst - 1) 0 = 92
                && (re.isNone || dst - 1 > re.getD 0) then (buf, dst - 1, rest)
            else if rest.getD 0 0 = 92 then (buf, dst, rest.drop 1)
            else (buf, dst, rest)
          let fix := isalphaW (st.1.getD 0 0) && st.1.getD 1 0 = 58
              && st.1.getD 2 0 ≠ 92
          let bufB := if fix then st.1.set 2 92 else st.1
          let dstB := if fix then 3 else st.2.1
          let reB := if fix then some 2 else re
          let srcB := if fix && st.2.2.getD 0 0 = 92 then st.2.2.drop 1 else st.2.2
          canonLoop flags fuel srcB bufB dstB reB
    else canonLoop flags fuel rest (buf.set dst c) (dst + 1) re

/-- The simplification stage of `PathAllocCanonicalize` (root copy, device
prefix stripping, segment collapsing, empty-result fix-up), returning the
resulting logical string. `len` is `strlenW` of the input. -/
def pacSimplify (pathIn : List Nat) (flags : PathFlags) (len : Nat) : List Nat :=
  let buf0 : List Nat := List.replicate (len + 6) 0
  let start :=
    match get_root_end pathIn with
    | some re =>
      let bufA := writeList buf0 0 (pathIn.take (re + 1))
      match pathCchStripPrefixW bufA (len + 6) with
      | (.sOk, bufB) =>
        let bufC :=
          if isalphaW (bufB.getD 0 0) && bufB.getD 1 0 = 58 && bufB.getD 2 0 ≠ 92
          then (bufB.set 2 92).set 3 0 else bufB
        let d := strlenW bufC
        (bufC, d, some d, re + 1)
      | (_, bufB) => (bufB, re + 1, some re, re + 1)
    | none => (buf0, 0, none, 0)
  let src := pathIn.drop start.2.2.2
  let res := canonLoop flags (src.length + 1) src start.1 start.2.1 start.2.2.1
  let s := strTrunc (res.1.set res.2 0)
  if s = [] then [92] else s

/-- `PathAllocCanonicalize`: flag validation, length ceilings, segment
simplification, `\\?\` promotion, optional trailing backslash.
(The `E_OUTOFMEMORY` paths of the C code are not modelled: allocation always
succeeds here.) -/
def pathAllocCanonicalize (pathIn : List Nat) (flags0 : PathFlags) :
    Except PathErr (List Nat) :=
  if pacBadFlags flags0 then .error .invalidArg
  else
    let len := strlenW pathIn
    if (len + 1 > 260 && !(flags0.allowLong || flags0.ensureExtended))
        || len + 1 > 32768 then .error .nameTooLong
    else
      let flags :=
        if flags0.ensureExtended then { flags0 with doNotNormalize := true }
        else flags0
      let s := pacSimplify pathIn flags len
      let s2 :=
        if ((s.length + 1 > 260 && isalphaW (s.getD 0 0) && s.getD 1 0 = 58)
              || (isalphaW (s.getD 0 0) && s.getD 1 0 = 58 && flags.ensureExtended))
            && !flags.forceEnable
        then 92 :: 92 :: 63 :: 92 :: s else s
      let s3 :=
        if flags.ensureTrailing then (pathCchAddBackslashW s2 ((len + 6) * 2)).2
        else s2
      .ok s3

/-- `PathAllocCombine` (`none` models a NULL argument). -/
def pathAllocCombine (path1 path2 : Option (List Nat)) (flags : PathFlags) :
    Except PathErr (List Nat) :=
  match path1, path2 with
  | none, none => .error .invalidArg
  | some p, none => pathAllocCanonicalize p flags
  | none, some p => pathAllocCanonicalize p flags
  | some p1, some p2 =>
    let fq := (isalphaW (p2.getD 0 0) && p2.getD 1 0 = 58)
        || (p2.getD 0 0 = 92 && p2.getD 1 0 = 92)
    let pa := if fq then p2 else p1
    let pb : Option (List Nat) := if fq then none else some p2
    let len2 := match pb with | some q => strlenW q | none => 0
    let clen := strlenW pa + len2 + 2
    let c1 := strTrunc (pathCchStripPrefixW (strTrunc pa) clen).2
    let c2 := if fq then (pathCchAddBackslashW c1 clen).2 else c1
    let c3 :=
      match pb with
      | some q =>
        if q.getD 0 0 ≠ 0 then
          let st :=
            if q.getD 0 0 = 92 && q.getD 1 0 ≠ 92
            then ((pathCchStripToRootW c2 clen).2, q.drop 1) else (c2, q)
          (pathCchAddBackslashW st.1 clen).2 ++ strTrunc st.2
        else c2
      | none => c2
    pathAllocCanonicalize c3 flags

/-- Equality of results of the allocating path functions is decidable. -/
instance {ε α : Type} [DecidableEq ε] [DecidableEq α] : DecidableEq (Except ε α) :=
  fun a b =>
    match a, b with
    | .error e, .error f => decidable_of_iff (e = f) (by simp)
    | .error _, .ok _ => isFalse (by simp)
    | .ok _, .error _ => isFalse (by simp)
    | .ok x, .ok y => decidable_of_iff (x = y) (by simp)

/-- The promotion condition of `PathAllocCanonicalize` as the amended claim
C6 states it: the intermediate result must be drive-absolute in both arms,
the length arm counts the terminator against `MAX_PATH`, and
`ForceEnableLongNameProcessing` suppresses promotion. -/
def extendedPromotionCond (s : List Nat) (flags : PathFlags) : Bool :=
  (isalphaW (s.getD 0 0) && s.getD 1 0 = 58)
    && (s.length + 1 > 260 || flags.ensureExtended)
    && !flags.forceEnable

/-- `k` copies of the `..\` segment, as in the C3 path form
`root ++ "..\\"×k ++ tail`. -/
def dotdotSegs : Nat → List Nat
  | 0 => []
  | k + 1 => 46 :: 46 :: 92 :: dotdotSegs k


/-! ### URL side: `ParseURLW`, `UrlUnescapeW`, `UrlEscapeW`,
`UrlCanonicalizeW`, `scan_url` / `parse_url`.

Strings are again NUL-free `List Nat` of UTF-16 units; out-of-range reads
model the terminating NUL (`getD _ _ 0`).  Buffer-size bookkeeping
(`E_POINTER` / `needed`) is not modelled: the claims concern the produced
strings, so the models return the value written for a sufficiently large
output buffer.  The `URL_ESCAPE_AS_UTF8` sub-branch of `UrlEscapeW` calls
`WideCharToMultiByte` (outside this file, like the Unicode tables) and is
not modelled; no claim exercises it. -/

/-- The `URL_*` flag words taken by the Url functions (one Boolean per bit
that the modelled code inspects; a zero `DWORD` is `{}`). -/
structure UrlFlags where
  dontSimplify : Bool := false
  unescape : Bool := false
  fileUsePathurl : Bool := false
  wininetCompat : Bool := false
  escapeUnsafe : Bool := false
  escapeSpacesOnly : Bool := false
  escapePercent : Bool := false
  dontEscapeExtraInfo : Bool := false
  escapeSegmentOnly : Bool := false
  escapeAsUtf8 : Bool := false
  dontUnescapeExtraInfo : Bool := false
deriving Repr, DecidableEq

/-- `URL_SCHEME` codes (the rows of `url_schemes` plus the two sentinels). -/
inductive UrlScheme where
  | ftp | http | gopher | mailto | news | nntp | telnet | wais | file
  | mk | https | shell | snews | localS | javascript | vbscript | about | res
  | unknown | invalid
deriving Repr, DecidableEq

/-- The `url_schemes` table. -/
def url_schemes : List (UrlScheme × List Nat) :=
  [(.ftp, wstr "ftp"), (.http, wstr "http"), (.gopher, wstr "gopher"),
   (.mailto, wstr "mailto"), (.news, wstr "news"), (.nntp, wstr "nntp"),
   (.telnet, wstr "telnet"), (.wais, wstr "wais"), (.file, wstr "file"),
   (.mk, wstr "mk"), (.https, wstr "https"), (.shell, wstr "shell"),
   (.snews, wstr "snews"), (.localS, wstr "local"),
   (.javascript, wstr "javascript"), (.vbscript, wstr "vbscript"),
   (.about, wstr "about"), (.res, wstr "res")]

/-- `get_scheme_code`: first table row whose name has the scanned length and
matches case-insensitively. -/
def get_scheme_code (scheme : List Nat) (scheme_len : Nat) : UrlScheme :=
  match url_schemes.find? (fun row =>
      scheme_len = row.2.length && strncmpiAt scheme 0 row.2) with
  | some row => row.1
  | none => .unknown

/-- The scheme scan of `ParseURLW`: count of leading
`isalnumW / - / + / .` units. -/
def parseSchemeLen (url : List Nat) : Nat :=
  (url.takeWhile (fun c => isalnumW c || c = 45 || c = 43 || c = 46)).length

/-- `PARSEDURLW` (offsets into the url instead of pointers). -/
structure ParsedURLW where
  cchProtocol : Nat
  nScheme : UrlScheme
deriving Repr, DecidableEq

/-- `ParseURLW`: scheme characters up to `:`; fails without a `:` or with a
scheme shorter than two units. -/
def parseURLW (url : List Nat) : Except Unit ParsedURLW :=
  let n := parseSchemeLen url
  if url.getD n 0 ≠ 58 ∨ n ≤ 1 then .error ()
  else .ok { cchProtocol := n, nScheme := get_scheme_code url n }

/-- Value of a hex digit (the `StrToIntExW(.., STIF_SUPPORT_HEX, ..)` call
of `UrlUnescapeW` on the two units after `%`). -/
def hexVal (c : Nat) : Nat :=
  if 48 ≤ c && c ≤ 57 then c - 48
  else if 65 ≤ c && c ≤ 70 then c - 55
  else if 97 ≤ c && c ≤ 102 then c - 87
  else 0

/-- The scan loop of `UrlUnescapeW` (structural on the input; the C reads
`src[1]`, `src[2]` before the bound, which a short tail models as NUL and
therefore as a non-hex-digit). `stop` is `stop_unescaping`. -/
def urlUnescapeRun (flags : UrlFlags) : List Nat → Bool → List Nat
  | [], _ => []
  | 37 :: d1 :: d2 :: rest, stop =>
    if isxdigitW d1 && isxdigitW d2 && !stop then
      (hexVal d1 * 16 + hexVal d2) :: urlUnescapeRun flags rest stop
    else 37 :: urlUnescapeRun flags (d1 :: d2 :: rest) stop
  | c :: rest, stop =>
    if flags.dontUnescapeExtraInfo && (c = 35 || c = 63) then
      c :: urlUnescapeRun flags rest true
    else c :: urlUnescapeRun flags rest stop

/-- `UrlUnescapeW` on a NUL-free url (large output buffer). -/
def urlUnescapeW (url : List Nat) (flags : UrlFlags) : List Nat :=
  urlUnescapeRun flags url false

/-- The `WINE_URL_*` internal flag bits of `UrlEscapeW`. -/
structure IntFlags where
  bashAsSlash : Bool := false
  collapseSlashes : Bool := false
  escapeSlash : Bool := false
  escapeHash : Bool := false
  escapeQuestion : Bool := false
  stopOnHash : Bool := false
  stopOnQuestion : Bool := false
deriving Repr, DecidableEq

/-- `url_needs_escape`. -/
def url_needs_escape (ch : Nat) (flags : UrlFlags) (intFlags : IntFlags) : Bool :=
  if flags.escapeSpacesOnly then ch = 32
  else if flags.escapePercent && ch = 37 then true
  else if flags.escapeAsUtf8 && 128 ≤ ch then true
  else if ch ≤ 31 || (127 ≤ ch && ch ≤ 255) then true
  else if isalnumW ch then false
  else if ch = 32 || ch = 60 || ch = 62 || ch = 34 || ch = 123 || ch = 125
      || ch = 124 || ch = 92 || ch = 94 || ch = 93 || ch = 91 || ch = 96
      || ch = 38 then true
  else if ch = 47 then intFlags.escapeSlash
  else if ch = 63 then intFlags.escapeQuestion
  else if ch = 35 then intFlags.escapeHash
  else false

/-- `hexDigits[n]` (`"0123456789ABCDEF"`). -/
def hexDigit (n : Nat) : Nat := if n < 10 then 48 + n else 55 + n

/-- The flag fix-up and `int_flags` computation of `UrlEscapeW`; returns the
fixed flags, the `WINE_URL_*` bits and `cchProtocol` (0 when the url has no
parsable scheme; the C leaves it uninitialised then, and only reads it under
`WINE_URL_COLLAPSE_SLASHES`, which implies a parsed `file` scheme). -/
def urlEscapeSetup (url : List Nat) (flags0 : UrlFlags) :
    UrlFlags × IntFlags × Nat :=
  let flags :=
    if flags0.escapeSpacesOnly then
      { flags0 with dontEscapeExtraInfo := false, escapePercent := false, escapeSegmentOnly := false }
    else { flags0 with dontEscapeExtraInfo := true }
  if flags.escapeSegmentOnly then
    (flags, { escapeQuestion := true, escapeHash := true, escapeSlash := true }, 0)
  else
    let parsed := match parseURLW url with
      | .ok p => p
      | .error _ => { cchProtocol := 0, nScheme := .invalid }
    let base : IntFlags :=
      if flags.dontEscapeExtraInfo then { stopOnHash := true, stopOnQuestion := true }
      else {}
    let suffix0 := url.getD (parsed.cchProtocol + 1) 0
    let httpSlash := base.escapeSlash || (suffix0 ≠ 47 && suffix0 ≠ 92)
    let intFlags :=
      match parsed.nScheme with
      | .file =>
        { base with bashAsSlash := true, collapseSlashes := true, escapeHash := true, stopOnHash := false }
      | .http => { base with bashAsSlash := true, escapeSlash := httpSlash }
      | .https => { base with bashAsSlash := true, escapeSlash := httpSlash }
      | .mailto =>
        { base with escapeSlash := true, escapeQuestion := true, escapeHash := true, stopOnQuestion := false, stopOnHash := false }
      | .invalid => base
      | _ => if suffix0 ≠ 47 then { base with escapeSlash := true } else base
    (flags, intFlags, parsed.cchProtocol)

/-- The main loop of `UrlEscapeW` over `src` index `i` (`stop` is
`stop_escaping`).  The slash-collapse branch is entered exactly when the
current unit is `/` or `\` (otherwise it computes `len = 0` and falls
through to the ordinary character step on the same unit). -/
def urlEscapeLoop (flags : UrlFlags) (intFlags : IntFlags) (schemeEnd : Nat)
    (url : List Nat) : Nat → Nat → Bool → List Nat
  | 0, _, _ => []
  | fuel + 1, i, stop =>
    let cur0 := url.getD i 0
    if cur0 = 0 then []
    else if intFlags.collapseSlashes && i = schemeEnd + 1
        && (cur0 = 47 || cur0 = 92) then
      let s := ((url.drop i).takeWhile (fun c => c = 47 || c = 92)).length
      let i2 := i + s
      let hostFold := s = 2 && strncmpiAt url i2 (wstr "localhost")
      let i3 := if hostFold
          && (url.getD (i2 + 9) 0 = 47 || url.getD (i2 + 9) 0 = 92)
        then i2 + 10 else i2
      let s2 := if hostFold then 3 else s
      (if s2 = 1 || s2 = 3 then [47, 47, 47] else [47, 47])
        ++ urlEscapeLoop flags intFlags schemeEnd url fuel i3 stop
    else
      let stop1 := stop || (cur0 = 35 && intFlags.stopOnHash)
        || (cur0 = 63 && intFlags.stopOnQuestion)
      let cur := if cur0 = 92 && intFlags.bashAsSlash && !stop1 then 47 else cur0
      (if url_needs_escape cur flags intFlags && !stop1
        then [37, hexDigit (cur / 16 % 16), hexDigit (cur % 16)]
        else [cur])
        ++ urlEscapeLoop flags intFlags schemeEnd url fuel (i + 1) stop1

/-- `UrlEscapeW` on a url held in a list (large output buffer). -/
def urlEscapeW (url : List Nat) (flags0 : UrlFlags) : List Nat :=
  match urlEscapeSetup url flags0 with
  | (flags, intFlags, schemeEnd) =>
    urlEscapeLoop flags intFlags schemeEnd url (url.length + 1) 0 false

/-- First offset `≥ i` of `/` or `\` in the NUL-terminated input
(the `strchrW` pair of `UrlCanonicalizeW` state 6). -/
def firstSlashFrom (url : List Nat) (i : Nat) : Option Nat :=
  match ((url.drop i).takeWhile (fun c => c ≠ 0)).findIdx?
      (fun c => c = 47 || c = 92) with
  | some off => some (i + off)
  | none => none

/-- Last offset of unit `c` in `l`, if any (`strrchrW`). -/
def lastIdxOf (l : List Nat) (c : Nat) : Option Nat :=
  match (l.enum.filter (fun p => p.2 = c)).getLast? with
  | some p => some p.1
  | none => none

/-- The back-up point of the `/../` case: `strrchrW(root, '/')` and
`strrchrW(root, '\\')` combined by `if (mp2 && (!mp || mp2 < mp)) mp = mp2;`
— the *smaller* of the two last-occurrence offsets. -/
def lastSlashIdx (region : List Nat) : Option Nat :=
  match lastIdxOf region 92, lastIdxOf region 47 with
  | some b, none => some b
  | some b, some a => some (if b < a then b else a)
  | none, x => x

/-- The `while (*wk1 == '.')` loop of state 6: handles `./` skips and `/../`
back-ups; returns the new input offset and buffer.  On back-up the unit
before the cursor is zeroed, the search region is the NUL-terminated string
from `root`, and a failed search restores `slash` (possibly NUL) there. -/
def urlCDots (slash : Nat) (url : List Nat) (root : Nat) :
    Nat → Nat → List Nat → Nat × List Nat
  | 0, i, buf => (i, buf)
  | fuel + 1, i, buf =>
    if url.getD i 0 = 46 then
      if url.getD (i + 1) 0 = 47 || url.getD (i + 1) 0 = 92 then
        urlCDots slash url root fuel (i + 2) buf
      else if url.getD (i + 1) 0 = 46
          && (url.getD (i + 2) 0 = 47 || url.getD (i + 2) 0 = 92
              || url.getD (i + 2) 0 = 63 || url.getD (i + 2) 0 = 35
              || url.getD (i + 2) 0 = 0) then
        let bufZ := buf.set (buf.length - 1) 0
        match lastSlashIdx ((bufZ.drop root).takeWhile (fun c => c ≠ 0)) with
        | some off =>
          let i2 := if url.getD (i + 2) 0 ≠ 47 && url.getD (i + 2) 0 ≠ 92
            then i + 2 else i + 3
          urlCDots slash url root fuel i2 (bufZ.take (root + off + 1))
        | none => (i, bufZ.set (bufZ.length - 1) slash)
      else (i, buf)
    else (i, buf)

/-- The outer `while (*wk1)` of state 6: copy up to the next slash, write the
canonical slash, run the dot loop. -/
def urlCSeg (slash : Nat) (url : List Nat) (root : Nat) :
    Nat → Nat → List Nat → List Nat
  | 0, _, buf => buf
  | fuel + 1, i, buf =>
    if url.getD i 0 = 0 then buf
    else
      match firstSlashFrom url i with
      | none => buf ++ ((url.drop i).takeWhile (fun c => c ≠ 0))
      | some m =>
        let bufA := (buf ++ (url.drop i).take (m - i))
          ++ [if slash ≠ 0 then slash else url.getD m 0]
        match urlCDots slash url root fuel (m + 1) bufA with
        | (i2, buf2) => urlCSeg slash url root fuel i2 buf2

/-- State 3 of `UrlCanonicalizeW`: verbatim copy of the rest, then slash
normalisation over the copied span when `slash` is set. -/
def urlCState3 (slash : Nat) (url : List Nat) (i : Nat) (buf : List Nat) :
    List Nat :=
  buf ++ ((url.drop i).takeWhile (fun c => c ≠ 0)).map
    (fun c => if slash ≠ 0 && (c = 47 || c = 92) then slash else c)

/-- State 6 entry: `URL_DONT_SIMPLIFY` falls back to state 3, otherwise the
root is fixed one unit before the cursor and the segment loop runs. -/
def urlCState6 (flags : UrlFlags) (slash : Nat) (url : List Nat) (i : Nat)
    (buf : List Nat) : List Nat :=
  if url.getD i 0 = 0 then buf
  else if flags.dontSimplify then urlCState3 slash url i buf
  else urlCSeg slash url (buf.length - 1) (url.length + 1) i buf

/-- State 5: one or more slashes (normalised through `slash`), else state 3. -/
def urlCState5 (flags : UrlFlags) (slash : Nat) (url : List Nat) (i : Nat)
    (buf : List Nat) : List Nat :=
  if url.getD i 0 = 0 then buf
  else if url.getD i 0 ≠ 47 && url.getD i 0 ≠ 92 then urlCState3 slash url i buf
  else
    let run := (url.drop i).takeWhile (fun c => c = 47 || c = 92)
    urlCState6 flags slash url (i + run.length)
      (buf ++ run.map (fun c => if slash ≠ 0 then slash else c))

/-- State 4: a run of host units (`alnum - . :`), else state 3; a url ending
here gets a final canonical slash. -/
def urlCState4 (flags : UrlFlags) (slash : Nat) (url : List Nat) (i : Nat)
    (buf : List Nat) : List Nat :=
  if url.getD i 0 = 0 then buf
  else if !(isalnumW (url.getD i 0) || url.getD i 0 = 45 || url.getD i 0 = 46
      || url.getD i 0 = 58) then urlCState3 slash url i buf
  else
    let run := (url.drop i).takeWhile
      (fun c => isalnumW c || c = 45 || c = 46 || c = 58)
    let j := i + run.length
    let buf2 := buf ++ run
    if url.getD j 0 = 0 then buf2 ++ [if slash ≠ 0 then slash else 47]
    else urlCState5 flags slash url j buf2

/-- State 2: just saw the `:`; copies one unit, and a second when it is `/`,
with the file-url special cases; then state 4 (or state 6 without `//`). -/
def urlCState2 (flags : UrlFlags) (slash : Nat) (isFile : Bool)
    (url : List Nat) (i : Nat) (buf : List Nat) : List Nat :=
  if url.getD i 0 = 0 then buf
  else
    let buf := buf ++ [url.getD i 0]
    let i := i + 1
    if url.getD i 0 ≠ 47 then urlCState6 flags slash url i buf
    else
      let buf := buf ++ [url.getD i 0]
      let i := i + 1
      let i := if flags.fileUsePathurl && strlenW url + 1 ≥ 9 && isFile
          && strncmpAt url i (wstr "localhost") then
          i + 9 + ((url.drop (i + 9)).takeWhile (fun c => c = 92)).length
        else i
      if url.getD i 0 = 47 && flags.fileUsePathurl then
        urlCState4 flags slash url (i + 1) buf
      else if isFile then
        let body := i + ((url.drop i).takeWhile (fun c => c = 47)).length
        let buf :=
          if isalnumW (url.getD body 0) && url.getD (body + 1) 0 = 58 then
            if !(flags.wininetCompat || flags.fileUsePathurl) then
              buf ++ [if slash ≠ 0 then slash else 47]
            else buf
          else if flags.wininetCompat then
            if url.getD i 0 = 47 && url.getD (i + 1) 0 ≠ 47 then buf ++ [92]
            else buf ++ [92, 92]
          else if url.getD i 0 = 47 && url.getD (i + 1) 0 ≠ 47 then
            buf ++ [if slash ≠ 0 then slash else 47]
          else buf
        urlCState4 flags slash url body buf
      else urlCState4 flags slash url i buf

/-- States 0 and 1: two alnum units, then copy up to and including the `:`;
any failure falls to state 3. -/
def urlCState0 (flags : UrlFlags) (slash : Nat) (isFile : Bool)
    (url : List Nat) (buf : List Nat) : List Nat :=
  if url.getD 0 0 = 0 then buf
  else if !isalnumW (url.getD 0 0) then urlCState3 slash url 0 buf
  else if !isalnumW (url.getD 1 0) then urlCState3 slash url 1 (buf ++ [url.getD 0 0])
  else
    let buf := buf ++ [url.getD 0 0, url.getD 1 0]
    let run := (url.drop 2).takeWhile (fun c => c ≠ 58 && c ≠ 0)
    let j := 2 + run.length
    if url.getD j 0 = 0 then buf ++ run
    else urlCState2 flags slash isFile url (j + 1) (buf ++ run ++ [58])

/-- The simplification stage of `UrlCanonicalizeW` on the tab-stripped url:
computes `slash` / `is_file_url`, handles the `url[1] == ':'` and
`url[0] == '/'` entry branches, and runs the state machine.  Returns the
`url_copy` string and the (possibly updated) flags. -/
def urlCanonSimplify (flags0 : UrlFlags) (url : List Nat) :
    List Nat × UrlFlags :=
  let isFile := strncmpW_eq url (wstr "file:")
  let slash : Nat :=
    if (strlenW url + 1 ≥ 5 && strncmpW_eq url (wstr "http:")) || isFile
    then 47 else 0
  let slash := if (flags0.fileUsePathurl || flags0.wininetCompat) && isFile
    then 92 else slash
  let isRes := strlenW url + 1 ≥ 4 && strncmpW_eq url (wstr "res:")
  let flags := if isRes then { flags0 with fileUsePathurl := false } else flags0
  let slash := if isRes then 0 else slash
  if url.getD 1 0 = 58 then
    if flags.fileUsePathurl || flags.wininetCompat then
      (urlCState5 flags 92 url 0 (wstr "file://"), flags)
    else
      let flags := { flags with escapeUnsafe := true }
      (urlCState5 flags slash url 0 (wstr "file:///"), flags)
  else if url.getD 0 0 = 47 then
    (urlCState5 flags slash url 0 [], flags)
  else
    (urlCState0 flags slash isFile url [], flags)

/-- Trailing trim of `UrlCanonicalizeW`: drop trailing units `≤ ' '`. -/
def trimTrailing (l : List Nat) : List Nat :=
  (l.reverse.dropWhile (fun c => c ≤ 32)).reverse

/-- `UrlCanonicalizeW` (large output buffer): tab strip, simplification,
trailing trim, optional in-place unescape, and the escape / plain-copy
stage driven by the masked escape flags. -/
def urlCanonicalizeW (urlIn : List Nat) (flags0 : UrlFlags) :
    Except Unit (List Nat) :=
  if urlIn.getD 0 0 = 0 then .ok []
  else
    let url := urlIn.filter (fun c => c ≠ 9)
    match urlCanonSimplify flags0 url with
    | (copy, flags) =>
      let t := trimTrailing (strTrunc copy)
      let t := if flags.unescape || (flags.fileUsePathurl
          && strlenW url + 1 ≥ 5 && strncmpW_eq url (wstr "file:"))
        then urlUnescapeRun {} t false
        else t
      let escAny := flags.escapeUnsafe || flags.escapeSpacesOnly
        || flags.escapePercent || flags.dontEscapeExtraInfo
        || flags.escapeSegmentOnly
      if escAny then
        .ok (urlEscapeW (strTrunc t)
          { escapeSpacesOnly := flags.escapeSpacesOnly,
            escapePercent := flags.escapePercent,
            dontEscapeExtraInfo := flags.dontEscapeExtraInfo,
            escapeSegmentOnly := flags.escapeSegmentOnly })
      else .ok (strTrunc t)

/-- The `USERPASS` character class of `scan_url`. -/
def userpassChar (c : Nat) : Bool :=
  isalphaW c || isdigitW c || c = 59 || c = 63 || c = 38 || c = 61 || c = 33
    || c = 42 || c = 39 || c = 40 || c = 41 || c = 44 || c = 36 || c = 95
    || c = 43 || c = 45 || c = 46 || c = 32

/-- `scan_url(.., USERPASS)`: length of the scanned span starting at `i`
(class units, or `%` followed by two hex digits). -/
def userpassScanF (url : List Nat) : Nat → Nat → Nat
  | 0, _ => 0
  | fuel + 1, i =>
    if userpassChar (url.getD i 0) then 1 + userpassScanF url fuel (i + 1)
    else if url.getD i 0 = 37 && isxdigitW (url.getD (i + 1) 0)
        && isxdigitW (url.getD (i + 2) 0) then
      3 + userpassScanF url fuel (i + 3)
    else 0

/-- `scan_url(.., USERPASS)` span length from offset `i`. -/
def userpassScanLen (url : List Nat) (i : Nat) : Nat :=
  userpassScanF url (url.length + 1) i

/-- `scan_url(.., SCHEME)` span length (lower-case letters, digits, `+ - .`);
the zeroing of `*size` without a following `:` is applied by `parse_url`
through its own `:` test. -/
def schemeScanLen (url : List Nat) : Nat :=
  (url.takeWhile (fun c => (islowerW c && isalphaW c) || isdigitW c
    || c = 43 || c = 45 || c = 46)).length

/-- `scan_url(.., HOST)` span length from offset `i`. -/
def hostScanLen (url : List Nat) (i : Nat) : Nat :=
  ((url.drop i).takeWhile (fun c => isalnumW c || c = 45 || c = 46
    || c = 32 || c = 42)).length

/-- `scan_url(.., PORT)` span length from offset `i`. -/
def portScanLen (url : List Nat) (i : Nat) : Nat :=
  ((url.drop i).takeWhile isdigitW).length

/-- `struct parsed_url` (pointers as offsets; `none` is a NULL pointer,
as left by the `memset`). -/
structure ParsedUrl where
  scheme : Nat := 0
  scheme_len : Nat := 0
  username : Option Nat := none
  username_len : Nat := 0
  password : Option Nat := none
  password_len : Nat := 0
  hostname : Option Nat := none
  hostname_len : Nat := 0
  port : Option Nat := none
  port_len : Nat := 0
  query : Option Nat := none
  query_len : Nat := 0
deriving Repr, DecidableEq

/-- The hostname/port/query tail of `parse_url`, entered at offset `w`. -/
def parse_url_host (url : List Nat) (pu : ParsedUrl) (w : Nat) : ParsedUrl :=
  let hlen := hostScanLen url w
  let pu := { pu with hostname := some w, hostname_len := hlen }
  let w2 := w + hlen
  let (pu, w3) :=
    if url.getD w2 0 = 58 then
      let plen := portScanLen url (w2 + 1)
      ({ pu with port := some (w2 + 1), port_len := plen }, w2 + 1 + plen)
    else (pu, w2)
  if url.getD w3 0 = 47 then
    match ((url.drop w3).takeWhile (fun c => c ≠ 0)).findIdx?
        (fun c => c = 63) with
    | some off =>
      { pu with query := some (w3 + off), query_len := strlenW (url.drop (w3 + off)) }
    | none => pu
  else pu

/-- `parse_url`. -/
def parse_url (url : List Nat) : Except Unit ParsedUrl :=
  let n := schemeScanLen url
  let pu0 : ParsedUrl := { scheme := 0, scheme_len := n }
  if url.getD n 0 ≠ 58 then .error ()
  else if ¬(url.getD (n + 1) 0 = 47 ∧ url.getD (n + 2) 0 = 47) then .ok pu0
  else
    let us := n + 3
    let ulen := userpassScanLen url us
    let ue := us + ulen
    if url.getD ue 0 = 58 then
      let ps := ue + 1
      let plen := userpassScanLen url ps
      if url.getD (ps + plen) 0 = 64 then
        .ok (parse_url_host url
          { pu0 with username := some us, username_len := ulen, password := some ps, password_len := plen }
          (ps + plen + 1))
      else .ok (parse_url_host url pu0 us)
    else if url.getD ue 0 = 64 then
      .ok (parse_url_host url { pu0 with username := some us, username_len := ulen } (ue + 1))
    else if url.getD ue 0 = 0 ∨ url.getD ue 0 = 47 ∨ url.getD ue 0 = 46 then
      .ok (parse_url_host url pu0 us)
    else .error ()

/-- Boolean refactoring behind the amended C6 condition. -/
theorem promoCondFactor (L a b e f : Bool) :
    (((L && a && b) || (a && b && e)) && !f) = (((a && b) && (L || e)) && !f) := by
  cases L <;> cases a <;> cases b <;> cases e <;> cases f <;> rfl

/-- C5: for every input path, `PathAllocCanonicalize` returns `E_INVALIDARG`
(and, in the C code, nulls the output pointer — here: produces no result)
whenever both Force* flags are set, or `EnsureExtendedLengthPath` is combined
with `AllowLongPaths`, or a Force* flag is set without `AllowLongPaths`. -/
theorem pathAllocCanonicalize_rejects_conflicting_flags
    (path : List Nat) (flags : PathFlags)
    (h : (flags.forceEnable = true ∧ flags.forceDisable = true)
        ∨ (flags.ensureExtended = true ∧ flags.allowLong = true)
        ∨ ((flags.forceEnable = true ∨ flags.forceDisable = true)
            ∧ flags.allowLong = false)) :
    pathAllocCanonicalize path flags = .error .invalidArg := by
  have hb : pacBadFlags flags = true := by
    unfold pacBadFlags
    rcases h with ⟨h1, h2⟩ | ⟨h1, h2⟩ | ⟨h1, h2⟩
    · simp [h1, h2]
    · simp [h1, h2]
    · rcases h1 with h1 | h1 <;> simp [h1, h2]
  simp [pathAllocCanonicalize, hb]

/-- Witness for C5 at a concrete path and flag word. -/
theorem pathAllocCanonicalize_rejects_conflicting_flags_witness :
    (({ forceEnable := true, forceDisable := true } : PathFlags).forceEnable = true
        ∧ ({ forceEnable := true, forceDisable := true } : PathFlags).forceDisable = true)
    ∧ pathAllocCanonicalize (wstr "C:\\a") { forceEnable := true, forceDisable := true }
        = .error .invalidArg :=
  ⟨⟨rfl, rfl⟩,
    pathAllocCanonicalize_rejects_conflicting_flags _ _ (Or.inl ⟨rfl, rfl⟩)⟩

/-- C2 fails on the code: canonicalizing `\\?\UNC\server\share\..\x` does not
give `\\server\share\x`. -/
theorem pathAllocCanonicalize_uncDevice_counterexample :
    pathAllocCanonicalize (wstr "\\\\?\\UNC\\server\\share\\..\\x") {}
      ≠ .ok (wstr "\\\\server\\share\\x") := by decide

/-- C2 amended: after the `\\?\UNC\` prefix is stripped the re-derived root is
just `\\`, so the `..` segment removes `share` and the result is
`\\server\x`. -/
theorem pathAllocCanonicalize_uncDevice_actual :
    pathAllocCanonicalize (wstr "\\\\?\\UNC\\server\\share\\..\\x") {}
      = .ok (wstr "\\\\server\\x") := by rfl

/-- C4 fails on the code: with a fully-qualified `path2`, `PathAllocCombine`
appends a trailing backslash, so its result differs from canonicalizing
`path2` alone. -/
theorem pathAllocCombine_fullyQualified_counterexample :
    pathAllocCombine (some (wstr "x")) (some (wstr "C:\\a")) {} = .ok (wstr "C:\\a\\")
      ∧ pathAllocCanonicalize (wstr "C:\\a") {} = .ok (wstr "C:\\a")
      ∧ pathAllocCombine (some (wstr "x")) (some (wstr "C:\\a")) {}
          ≠ pathAllocCanonicalize (wstr "C:\\a") {} :=
  ⟨by rfl, by rfl, by decide⟩

/-- C4 amended: when `path2` is drive-absolute or UNC, the result of
`PathAllocCombine` is the canonicalization of `path2` stripped of a device
prefix and terminated with a backslash; `path1` does not occur in it. -/
theorem pathAllocCombine_fullyQualified_ignores_path1
    (p1 p2 : List Nat) (flags : PathFlags)
    (h : ((isalphaW (p2.getD 0 0) && p2.getD 1 0 = 58)
          || (p2.getD 0 0 = 92 && p2.getD 1 0 = 92)) = true) :
    pathAllocCombine (some p1) (some p2) flags =
      pathAllocCanonicalize
        ((pathCchAddBackslashW
            (strTrunc (pathCchStripPrefixW (strTrunc p2) (strlenW p2 + 2)).2)
            (strlenW p2 + 2)).2) flags := by
  simp only [pathAllocCombine]
  simp only [h]
  simp

/-- Witness for the amended C4 at concrete operands. -/
theorem pathAllocCombine_fullyQualified_ignores_path1_witness :
    (((isalphaW ((wstr "C:\\a").getD 0 0) && (wstr "C:\\a").getD 1 0 = 58)
        || ((wstr "C:\\a").getD 0 0 = 92 && (wstr "C:\\a").getD 1 0 = 92)) = true)
    ∧ pathAllocCombine (some (wstr "x")) (some (wstr "C:\\a")) {} =
        pathAllocCanonicalize
          ((pathCchAddBackslashW
              (strTrunc (pathCchStripPrefixW (strTrunc (wstr "C:\\a"))
                  (strlenW (wstr "C:\\a") + 2)).2)
              (strlenW (wstr "C:\\a") + 2)).2) {} :=
  ⟨by decide, pathAllocCombine_fullyQualified_ignores_path1 _ _ _ (by decide)⟩

/-- C6 fails on the code: `EnsureExtendedLengthPath` alone does not force the
`\\?\` prefix — the result must also be drive-absolute, so a UNC path is
returned without the prefix. -/
theorem pathAllocCanonicalize_promotion_counterexample :
    pathAllocCanonicalize (wstr "\\\\s\\x") { ensureExtended := true }
        = .ok (wstr "\\\\s\\x")
      ∧ (wstr "\\\\s\\x").take 4 ≠ wstr "\\\\?\\" :=
  ⟨by rfl, by decide⟩

/-- C6 amended: for every accepted input, the result carries the `\\?\`
prefix exactly when the simplified path is drive-absolute and (its length
plus terminator exceeds `MAX_PATH`, or `EnsureExtendedLengthPath` was
requested) and `ForceEnableLongNameProcessing` is clear
(`extendedPromotionCond`). -/
theorem pathAllocCanonicalize_promotion_rule (path : List Nat) (flags0 : PathFlags)
    (hb : pacBadFlags flags0 = false)
    (hl : ((strlenW path + 1 > 260 && !(flags0.allowLong || flags0.ensureExtended))
            || strlenW path + 1 > 32768) = false) :
    pathAllocCanonicalize path flags0 =
      .ok (let flags := if flags0.ensureExtended then
              { flags0 with doNotNormalize := true } else flags0
           let s := pacSimplify path flags (strlenW path)
           let s2 := if extendedPromotionCond s flags0
              then 92 :: 92 :: 63 :: 92 :: s else s
           if flags0.ensureTrailing then
              (pathCchAddBackslashW s2 ((strlenW path + 6) * 2)).2 else s2) := by
  have hext : (if flags0.ensureExtended then
      { flags0 with doNotNormalize := true } else flags0).ensureExtended
      = flags0.ensureExtended := by
    split <;> rfl
  have hfe : (if flags0.ensureExtended then
      { flags0 with doNotNormalize := true } else flags0).forceEnable
      = flags0.forceEnable := by
    split <;> rfl
  have htr : (if flags0.ensureExtended then
      { flags0 with doNotNormalize := true } else flags0).ensureTrailing
      = flags0.ensureTrailing := by
    split <;> rfl
  simp only [pathAllocCanonicalize, hb, Bool.false_eq_true, if_false, hl,
    extendedPromotionCond, hext, hfe, htr, promoCondFactor]

/-- A cell whose read is not the default lies inside the buffer. -/
theorem getD_lt_length {l : List Nat} {i : Nat} (h : l.getD i 0 ≠ 0) :
    i < l.length := by
  by_contra hn
  push_neg at hn
  exact h (List.getD_eq_default _ _ hn)

/-- Writing one cell leaves the others unchanged. -/
theorem getD_set_of_ne {l : List Nat} {i j a d : Nat} (h : i ≠ j) :
    (l.set i a).getD j d = l.getD j d := by
  simp [List.getD_eq_getElem?_getD, List.getElem?_set_ne h]

/-- Reading back a written cell. -/
theorem getD_set_self {l : List Nat} {i a d : Nat} (h : i < l.length) :
    (l.set i a).getD i d = a := by
  simp [List.getD_eq_getElem?_getD, List.getElem?_set, h]

/-- The `..` backward-deletion loop over a buffer whose cells `0`,`1`,`2`
hold a drive root `c:\`: it never deletes below cell 2, and deletes cell 2
(the root backslash) exactly when it stops there. -/
theorem backtrackZero_drive (c : Nat) :
    ∀ (d : Nat) (buf : List Nat), buf.getD 0 0 = c → buf.getD 1 0 = 58 →
      buf.getD 2 0 = 92 → 3 ≤ d →
      (backtrackZero buf d).1.getD 0 0 = c
      ∧ (backtrackZero buf d).1.getD 1 0 = 58
      ∧ 2 ≤ (backtrackZero buf d).2
      ∧ (backtrackZero buf d).2 ≤ d
      ∧ (backtrackZero buf d).1.length = buf.length
      ∧ ((backtrackZero buf d).2 = 2 → (backtrackZero buf d).1.getD 2 0 = 0)
      ∧ (3 ≤ (backtrackZero buf d).2 → (backtrackZero buf d).1.getD 2 0 = 92) := by
  intro d
  induction d with
  | zero => intro buf _ _ _ h3; omega
  | succ e ih =>
    intro buf h0 h1 h2 h3
    by_cases hb : buf.getD e 0 = 92
    · have he2 : 2 ≤ e := by
        rcases Nat.lt_or_ge e 2 with he | he
        · interval_cases e
          · omega
          · rw [h1] at hb; omega
        · exact he
      simp only [backtrackZero, hb, if_true]
      refine ⟨?_, ?_, he2, by omega, by simp, ?_, ?_⟩
      · rw [getD_set_of_ne (by omega)]; exact h0
      · rw [getD_set_of_ne (by omega)]; exact h1
      · intro hee
        subst hee
        exact getD_set_self (getD_lt_length (by rw [h2]; omega))
      · intro hee
        rw [getD_set_of_ne (by omega)]; exact h2
    · have he3 : 3 ≤ e := by
        rcases Nat.lt_or_ge e 3 with he | he
        · interval_cases e
          · omega
          · omega
          · exact absurd h2 hb
        · exact he
      simp only [backtrackZero, hb, if_false]
      have r := ih (buf.set e 0)
        (by rw [getD_set_of_ne (by omega)]; exact h0)
        (by rw [getD_set_of_ne (by omega)]; exact h1)
        (by rw [getD_set_of_ne (by omega)]; exact h2)
        he3
      refine ⟨r.1, r.2.1, r.2.2.1, by omega, by rw [r.2.2.2.2.1]; simp,
        r.2.2.2.2.2.1, r.2.2.2.2.2.2⟩

set_option maxHeartbeats 1000000 in
theorem canonLoop_drive_inv (flags : PathFlags) (c : Nat) (hc : isalphaW c = true) :
    ∀ (fuel : Nat) (src buf : List Nat) (dst : Nat),
      buf.getD 0 0 = c → buf.getD 1 0 = 58 → buf.getD 2 0 = 92 → 3 ≤ dst →
      ((canonLoop flags fuel src buf dst (some 2)).1.getD 0 0 = c
      ∧ (canonLoop flags fuel src buf dst (some 2)).1.getD 1 0 = 58
      ∧ (canonLoop flags fuel src buf dst (some 2)).1.getD 2 0 = 92
      ∧ 3 ≤ (canonLoop flags fuel src buf dst (some 2)).2
      ∧ (canonLoop flags fuel src buf dst (some 2)).2 ≤ dst + src.length
      ∧ (canonLoop flags fuel src buf dst (some 2)).1.length = buf.length) := by
  intro fuel
  induction fuel with
  | zero =>
    intro src buf dst h0 h1 h2 h3
    simp only [canonLoop]
    exact ⟨h0, h1, h2, h3, Nat.le_add_right _ _, trivial⟩
  | succ fuel ih =>
    intro src buf dst h0 h1 h2 h3
    match src with
    | [] =>
      simp only [canonLoop]
      exact ⟨h0, h1, h2, h3, Nat.le_add_right _ _, trivial⟩
    | c' :: rest =>
      have hstep : ∀ (src' buf' : List Nat) (dst' : Nat),
          buf'.getD 0 0 = c → buf'.getD 1 0 = 58 → buf'.getD 2 0 = 92 →
          3 ≤ dst' → dst' + src'.length ≤ dst + (c' :: rest).length →
          buf'.length = buf.length →
          ((canonLoop flags fuel src' buf' dst' (some 2)).1.getD 0 0 = c
          ∧ (canonLoop flags fuel src' buf' dst' (some 2)).1.getD 1 0 = 58
          ∧ (canonLoop flags fuel src' buf' dst' (some 2)).1.getD 2 0 = 92
          ∧ 3 ≤ (canonLoop flags fuel src' buf' dst' (some 2)).2
          ∧ (canonLoop flags fuel src' buf' dst' (some 2)).2 ≤ dst + (c' :: rest).length
          ∧ (canonLoop flags fuel src' buf' dst' (some 2)).1.length = buf.length) := by
        intro src' buf' dst' g0 g1 g2 g3 gb gl
        have r := ih src' buf' dst' g0 g1 g2 g3
        exact ⟨r.1, r.2.1, r.2.2.1, r.2.2.2.1, le_trans r.2.2.2.2.1 gb,
          r.2.2.2.2.2.trans gl⟩
      have hkeep0 : (buf.set dst 46).getD 0 0 = c := by
        rw [getD_set_of_ne (by omega)]; exact h0
      have hkeep1 : (buf.set dst 46).getD 1 0 = 58 := by
        rw [getD_set_of_ne (by omega)]; exact h1
      have hkeep2 : (buf.set dst 46).getD 2 0 = 92 := by
        rw [getD_set_of_ne (by omega)]; exact h2
      by_cases hz : c' = 0
      · simp only [canonLoop, if_pos hz]
        exact ⟨h0, h1, h2, h3, Nat.le_add_right _ _, trivial⟩
      · by_cases h46 : c' = 46
        · by_cases hdd : rest.getD 0 0 = 46
          · -- double dot
            by_cases hstar : (decide (dst > 0) && decide (buf.getD (dst - 1) 0 = 42)) = true
            · simp only [canonLoop, if_neg hz, if_pos h46, if_pos hdd, hstar, if_true]
              refine hstep rest _ (dst + 1) hkeep0 hkeep1 hkeep2 (by omega)
                (by simp only [List.length_cons]; omega) (by simp)
            · by_cases hkeep : (dst > 0 &&
                  ((flags.doNotNormalize && buf.getD (dst - 1) 0 ≠ 92)
                    || (buf.getD (dst - 1) 0 ≠ 92 && (rest.drop 1).getD 0 0 ≠ 92
                          && (rest.drop 1).getD 0 0 ≠ 0))) = true
              · have hr1 : 1 ≤ rest.length := by
                  cases rest with
                  | nil => simp [List.getD] at hdd
                  | cons a t => simp
                simp only [canonLoop]
                rw [if_neg hz, if_pos h46, if_pos hdd, if_neg hstar, if_pos hkeep]
                refine hstep _ _ _ ?_ ?_ ?_ (by omega) ?_ ?_
                · rw [getD_set_of_ne (by omega), getD_set_of_ne (by omega)]
                  exact h0
                · rw [getD_set_of_ne (by omega), getD_set_of_ne (by omega)]
                  exact h1
                · rw [getD_set_of_ne (by omega), getD_set_of_ne (by omega)]
                  exact h2
                · simp only [List.length_cons, List.length_drop]
                  omega
                · simp
              · -- the remove / skip branches of ".."
                have hr1 : 1 ≤ rest.length := by
                  cases rest with
                  | nil => simp [List.getD] at hdd
                  | cons a t => simp
                simp only [canonLoop]
                rw [if_neg hz, if_pos h46, if_pos hdd, if_neg hstar, if_neg hkeep]
                simp only [Option.isNone_some, Option.getD_some, Bool.false_or]
                by_cases hrem : (dst > 0 && buf.getD (dst - 1) 0 = 92 && dst - 1 > 2) = true
                · have hd3 : 2 < dst - 1 := by
                    simp only [Bool.and_eq_true, decide_eq_true_eq] at hrem
                    exact hrem.2
                  obtain ⟨b0, b1, b2ge, b2le, blen, bz2, bz3⟩ :=
                    backtrackZero_drive c (dst - 1) (buf.set (dst - 1) 0)
                      (by rw [getD_set_of_ne (by omega)]; exact h0)
                      (by rw [getD_set_of_ne (by omega)]; exact h1)
                      (by rw [getD_set_of_ne (by omega)]; exact h2)
                      (by omega)
                  simp only [hrem, if_true]
                  by_cases hbt : (backtrackZero (buf.set (dst - 1) 0) (dst - 1)).2 = 2
                  · have hB2 := bz2 hbt
                    have h2lt : 2 < (backtrackZero (buf.set (dst - 1) 0) (dst - 1)).1.length := by
                      rw [blen]
                      simp only [List.length_set]
                      exact getD_lt_length (by rw [h2]; omega)
                    have hfix : (isalphaW ((backtrackZero (buf.set (dst - 1) 0) (dst - 1)).1.getD 0 0)
                        && (backtrackZero (buf.set (dst - 1) 0) (dst - 1)).1.getD 1 0 = 58
                        && (backtrackZero (buf.set (dst - 1) 0) (dst - 1)).1.getD 2 0 ≠ 92) = true := by
                      rw [b0, b1, hB2]
                      simp [hc]
                    simp only [hfix, Bool.true_and, eq_self_iff_true, if_true]
                    by_cases hsl : (rest.drop 1).getD 0 0 = 92
                    · rw [if_pos (decide_eq_true hsl)]
                      refine hstep _ _ _ ?_ ?_ ?_ (by omega) ?_ ?_
                      · rw [getD_set_of_ne (by omega)]; exact b0
                      · rw [getD_set_of_ne (by omega)]; exact b1
                      · exact getD_set_self h2lt
                      · simp only [List.length_cons, List.length_drop]
                        omega
                      · simp [blen]
                    · rw [if_neg (by rw [decide_eq_false hsl]; simp)]
                      refine hstep _ _ _ ?_ ?_ ?_ (by omega) ?_ ?_
                      · rw [getD_set_of_ne (by omega)]; exact b0
                      · rw [getD_set_of_ne (by omega)]; exact b1
                      · exact getD_set_self h2lt
                      · simp only [List.length_cons, List.length_drop]
                        omega
                      · simp [blen]
                  · have hge3 : 3 ≤ (backtrackZero (buf.set (dst - 1) 0) (dst - 1)).2 := by
                      omega
                    have hB2 := bz3 hge3
                    have hfixF : (isalphaW ((backtrackZero (buf.set (dst - 1) 0) (dst - 1)).1.getD 0 0)
                        && (backtrackZero (buf.set (dst - 1) 0) (dst - 1)).1.getD 1 0 = 58
                        && (backtrackZero (buf.set (dst - 1) 0) (dst - 1)).1.getD 2 0 ≠ 92) = false := by
                      rw [hB2]
                      simp
                    simp only [hfixF, Bool.false_and, Bool.false_eq_true, if_false]
                    refine hstep _ _ _ b0 b1 hB2 hge3 ?_ ?_
                    · simp only [List.length_cons, List.length_drop]
                      omega
                    · rw [blen]
                      simp
                · simp only [hrem, Bool.false_eq_true, if_false]
                  have hfixF : (isalphaW (buf.getD 0 0) && buf.getD 1 0 = 58
                      && buf.getD 2 0 ≠ 92) = false := by
                    rw [h2]
                    simp
                  by_cases hsl : (rest.drop 1).getD 0 0 = 92
                  · rw [if_pos hsl]
                    simp only [hfixF, Bool.false_and, Bool.false_eq_true, if_false]
                    refine hstep _ _ _ h0 h1 h2 h3 ?_ rfl
                    simp only [List.length_cons, List.length_drop]
                    omega
                  · rw [if_neg hsl]
                    simp only [hfixF, Bool.false_and, Bool.false_eq_true, if_false]
                    refine hstep _ _ _ h0 h1 h2 h3 ?_ rfl
                    simp only [List.length_cons, List.length_drop]
                    omega
          · -- single dot
            by_cases hkeep : (dst > 0 &&
                ((flags.doNotNormalize && buf.getD (dst - 1) 0 ≠ 92)
                  || (buf.getD (dst - 1) 0 ≠ 92 && rest.getD 0 0 ≠ 92
                        && rest.getD 0 0 ≠ 0)
                  || buf.getD (dst - 1) 0 = 42)) = true
            · simp only [canonLoop]
              rw [if_neg hz, if_pos h46, if_neg hdd, if_pos hkeep]
              refine hstep _ _ _ hkeep0 hkeep1 hkeep2 (by omega) ?_ ?_
              · simp only [List.length_cons, List.length_drop]
                omega
              · simp
            · simp only [canonLoop]
              rw [if_neg hz, if_pos h46, if_neg hdd, if_neg hkeep]
              simp only [Option.isNone_some, Option.getD_some, Bool.false_or]
              have hfixF : (isalphaW (buf.getD 0 0) && buf.getD 1 0 = 58
                  && buf.getD 2 0 ≠ 92) = false := by
                rw [h2]
                simp
              by_cases hrem : (dst > 0 && buf.getD (dst - 1) 0 = 92 && dst - 1 > 2) = true
              · have hd3 : 2 < dst - 1 := by
                  simp only [Bool.and_eq_true, decide_eq_true_eq] at hrem
                  exact hrem.2
                simp only [hrem, if_true]
                simp only [hfixF, Bool.false_and, Bool.false_eq_true, if_false]
                refine hstep _ _ _ h0 h1 h2 (by omega) ?_ rfl
                simp only [List.length_cons, List.length_drop]
                omega
              · simp only [hrem, Bool.false_eq_true, if_false]
                by_cases hsl : rest.getD 0 0 = 92
                · rw [if_pos hsl]
                  simp only [hfixF, Bool.false_and, Bool.false_eq_true, if_false]
                  refine hstep _ _ _ h0 h1 h2 h3 ?_ rfl
                  simp only [List.length_cons, List.length_drop]
                  omega
                · rw [if_neg hsl]
                  simp only [hfixF, Bool.false_and, Bool.false_eq_true, if_false]
                  refine hstep _ _ _ h0 h1 h2 h3 ?_ rfl
                  simp only [List.length_cons, List.length_drop]
                  omega
        · -- plain copy
          simp only [canonLoop]
          rw [if_neg hz, if_neg h46]
          refine hstep rest _ (dst + 1)
            (by rw [getD_set_of_ne (by omega)]; exact h0)
            (by rw [getD_set_of_ne (by omega)]; exact h1)
            (by rw [getD_set_of_ne (by omega)]; exact h2)
            (by omega) (by simp only [List.length_cons]; omega) (by simp)

theorem wstr_volume_pat :
    wstr "\\\\?\\Volume" = [92, 92, 63, 92, 86, 111, 108, 117, 109, 101] := by rfl

theorem wstr_unc_pat : wstr "\\\\?\\UNC\\" = [92, 92, 63, 92, 85, 78, 67, 92] := by rfl

theorem wstr_disk_pat : wstr "\\\\?\\" = [92, 92, 63, 92] := by rfl

theorem strncmpiAt_cons_false {s : List Nat} {i p : Nat} {ps : List Nat}
    (h : toupperW (s.getD i 0) ≠ toupperW p) : strncmpiAt s i (p :: ps) = false := by
  simp only [strncmpiAt]
  rw [decide_eq_false h]
  simp

theorem strncmpAt_cons_false {s : List Nat} {i p : Nat} {ps : List Nat}
    (h : s.getD i 0 ≠ p) : strncmpAt s i (p :: ps) = false := by
  simp only [strncmpAt]
  rw [decide_eq_false h]
  simp

theorem get_root_end_drive (c : Nat) (rest : List Nat) (hc : isalphaW c = true) :
    get_root_end (c :: 58 :: 92 :: rest) = some 2 := by
  have h65 : 65 ≤ c ∧ c ≤ 90 ∨ 97 ≤ c ∧ c ≤ 122 := by
    simpa [isalphaW, Bool.or_eq_true, Bool.and_eq_true, decide_eq_true_eq] using hc
  have htoup : toupperW c ≠ 92 := by unfold toupperW; split <;> omega
  have hc92 : c ≠ 92 := by omega
  have hvol : is_prefixed_volume (c :: 58 :: 92 :: rest) = false := by
    unfold is_prefixed_volume strncmpiW_eq
    rw [wstr_volume_pat, strncmpiAt_cons_false (by simpa using htoup)]
    simp
  have hunc : is_prefixed_unc (c :: 58 :: 92 :: rest) = false := by
    unfold is_prefixed_unc strncmpiW_eq
    rw [wstr_unc_pat, strncmpiAt_cons_false (by simpa using htoup)]
  have hdisk : is_prefixed_disk (c :: 58 :: 92 :: rest) = false := by
    unfold is_prefixed_disk strncmpW_eq
    rw [wstr_disk_pat, strncmpAt_cons_false (by simpa using hc92)]
    simp
  unfold get_root_end
  simp [hvol, hunc, hdisk, hc92, hc, List.getD]

theorem strTrunc_length_le_of_getD_zero :
    ∀ (l : List Nat) (i : Nat), l.getD i 1 = 0 → (strTrunc l).length ≤ i := by
  intro l
  induction l with
  | nil => intro i h; simp [List.getD] at h
  | cons a t ih =>
    intro i h
    match i with
    | 0 =>
      simp only [List.getD_cons_zero] at h
      simp [strTrunc, List.takeWhile_cons, h]
    | i + 1 =>
      simp only [List.getD_cons_succ] at h
      by_cases ha : a = 0
      · simp [strTrunc, List.takeWhile_cons, ha]
      · simpa [strTrunc, List.takeWhile_cons, ha] using ih i h

theorem strTrunc_take3 {l : List Nat} (h0 : l.getD 0 0 ≠ 0) (h1 : l.getD 1 0 ≠ 0)
    (h2 : l.getD 2 0 ≠ 0) :
    (strTrunc l).take 3 = [l.getD 0 0, l.getD 1 0, l.getD 2 0] := by
  match l with
  | [] => simp [List.getD] at h0
  | [a] => simp [List.getD] at h1
  | [a, b] => simp [List.getD] at h2
  | a :: b :: c :: t =>
    simp only [List.getD_cons_zero, List.getD_cons_succ] at h0 h1 h2 ⊢
    simp [strTrunc, List.takeWhile_cons, h0, h1, h2]

theorem dotdotSegs_mem {k x : Nat} (h : x ∈ dotdotSegs k) : x = 46 ∨ x = 92 := by
  induction k with
  | zero => simp [dotdotSegs] at h
  | succ k ih =>
    simp only [dotdotSegs, List.mem_cons] at h
    rcases h with h | h | h | h
    · exact Or.inl h
    · exact Or.inl h
    · exact Or.inr h
    · exact ih h

theorem strlenW_of_not_mem {l : List Nat} (h : (0 : Nat) ∉ l) : strlenW l = l.length := by
  unfold strlenW
  have heq : (l.takeWhile (fun c => c ≠ 0)) = l := by
    rw [List.takeWhile_eq_self_iff]
    intro a ha
    have haz : a ≠ 0 := fun hz => h (hz ▸ ha)
    simp [haz]
  rw [heq]

/-- C3 counterexample: the root "\\\\" of "\\\\..\\a\\..x" is classified
(get_root_end = some 1, so the root spans the first 2 code units), yet
canonicalization yields "\\x", whose first 2 code units differ from the root:
".." segments do delete part of a backslash-backslash root. -/
theorem pathAllocCanonicalize_root_counterexample :
    get_root_end (wstr "\\\\..\\a\\..x") = some 1
    ∧ pathAllocCanonicalize (wstr "\\\\..\\a\\..x") {} = .ok (wstr "\\x")
    ∧ (wstr "\\x").take 2 ≠ (wstr "\\\\..\\a\\..x").take 2 := by
  refine ⟨by rfl, by rfl, by decide⟩

/-- C3 (amended): for a drive-absolute root "c:\\" (the sole root shape that
survives), canonicalizing root ++ k copies of "..\\" ++ tail (tail NUL-free,
total length within MAX_PATH) succeeds and the first 3 code units of the
result equal the root. -/
theorem pathAllocCanonicalize_root_preserved_drive (c k : Nat) (tail : List Nat) (hc : isalphaW c = true)
    (ht : (0 : Nat) ∉ tail)
    (hlen : (c :: 58 :: 92 :: (dotdotSegs k ++ tail)).length ≤ 259) :
    ∃ r, pathAllocCanonicalize (c :: 58 :: 92 :: (dotdotSegs k ++ tail)) {} = .ok r
      ∧ r.take 3 = [c, 58, 92] := by
  have h65 : 65 ≤ c ∧ c ≤ 90 ∨ 97 ≤ c ∧ c ≤ 122 := by
    simpa [isalphaW, Bool.or_eq_true, Bool.and_eq_true, decide_eq_true_eq] using hc
  have htoup : toupperW c ≠ toupperW 92 := by
    unfold toupperW
    split <;> split <;> omega
  have hc92 : c ≠ 92 := by omega
  have hc0 : c ≠ 0 := by omega
  set path := c :: 58 :: 92 :: (dotdotSegs k ++ tail) with hpath
  have hnz : (0 : Nat) ∉ path := by
    rw [hpath]
    intro hmem
    simp only [List.mem_cons, List.mem_append] at hmem
    rcases hmem with h | h | h | h | h
    · omega
    · omega
    · omega
    · rcases dotdotSegs_mem h with h | h <;> omega
    · exact ht h
  have hlenEq : strlenW path = path.length := strlenW_of_not_mem hnz
  have hlen3 : 3 ≤ path.length := by rw [hpath]; simp
  have hroot : get_root_end path = some 2 := get_root_end_drive c _ hc
  -- the simplify stage
  have htake : path.take (2 + 1) = [c, 58, 92] := by rw [hpath]; rfl
  have hdrop : path.drop (2 + 1) = dotdotSegs k ++ tail := by rw [hpath]; rfl
  have hbufA : writeList (List.replicate (strlenW path + 6) 0) 0 (path.take (2 + 1))
      = c :: 58 :: 92 :: List.replicate (strlenW path + 3) 0 := by
    rw [htake]
    unfold writeList
    simp only [List.take_zero, List.length_replicate, List.nil_append, List.drop_replicate,
      Nat.zero_add, Nat.sub_zero]
    rw [List.take_of_length_le (by simp)]
    simp [show strlenW path + 6 - 3 = strlenW path + 3 by omega]
  have huncA : is_prefixed_unc (c :: 58 :: 92 :: List.replicate (strlenW path + 3) 0) = false := by
    unfold is_prefixed_unc strncmpiW_eq
    rw [wstr_unc_pat, strncmpiAt_cons_false (by simpa using htoup)]
  have hdiskA : is_prefixed_disk (c :: 58 :: 92 :: List.replicate (strlenW path + 3) 0) = false := by
    unfold is_prefixed_disk strncmpW_eq
    rw [wstr_disk_pat, strncmpAt_cons_false (by simpa using hc92)]
    simp
  have hstrip : pathCchStripPrefixW (c :: 58 :: 92 :: List.replicate (strlenW path + 3) 0)
      (strlenW path + 6)
      = (.sFalse, c :: 58 :: 92 :: List.replicate (strlenW path + 3) 0) := by
    unfold pathCchStripPrefixW
    rw [if_neg (by rw [hlenEq]; simp; omega), if_neg (by simp [huncA]),
      if_neg (by simp [hdiskA])]
  obtain ⟨r0, r1, r2, r3, rb, rl⟩ := canonLoop_drive_inv {} c hc
    ((dotdotSegs k ++ tail).length + 1) (dotdotSegs k ++ tail)
    (c :: 58 :: 92 :: List.replicate (strlenW path + 3) 0) 3
    (by simp [List.getD]) (by simp [List.getD]) (by simp [List.getD]) (by omega)
  set res := canonLoop {} ((dotdotSegs k ++ tail).length + 1) (dotdotSegs k ++ tail)
    (c :: 58 :: 92 :: List.replicate (strlenW path + 3) 0) 3 (some 2) with hres
  have hlenA : (c :: 58 :: 92 :: List.replicate (strlenW path + 3) 0).length
      = strlenW path + 6 := by simp
  have hsrcLen : (dotdotSegs k ++ tail).length = path.length - 3 := by
    rw [hpath]; simp
  have hr2lt : res.2 < res.1.length := by
    rw [rl, hlenA, hlenEq]
    omega
  have hg0 : (res.1.set res.2 0).getD 0 0 = c := by
    rw [getD_set_of_ne (by omega)]; exact r0
  have hg1 : (res.1.set res.2 0).getD 1 0 = 58 := by
    rw [getD_set_of_ne (by omega)]; exact r1
  have hg2 : (res.1.set res.2 0).getD 2 0 = 92 := by
    rw [getD_set_of_ne (by omega)]; exact r2
  have htake3 : (strTrunc (res.1.set res.2 0)).take 3 = [c, 58, 92] := by
    rw [strTrunc_take3 (by rw [hg0]; omega) (by rw [hg1]; omega) (by rw [hg2]; omega),
      hg0, hg1, hg2]
  have hslen : (strTrunc (res.1.set res.2 0)).length ≤ res.2 :=
    strTrunc_length_le_of_getD_zero _ _ (getD_set_self hr2lt)
  have hsne : strTrunc (res.1.set res.2 0) ≠ [] := by
    intro he
    rw [he] at htake3
    simp at htake3
  have hsimp : pacSimplify path {} (strlenW path) = strTrunc (res.1.set res.2 0) := by
    unfold pacSimplify
    rw [hroot]
    simp only [hbufA, hstrip, hdrop]
    rw [if_neg hsne]
  have hs260 : (pacSimplify path {} (strlenW path)).length + 1 ≤ 260 := by
    rw [hsimp]
    have : res.2 ≤ 3 + (path.length - 3) := by rw [← hsrcLen]; exact rb
    omega
  refine ⟨pacSimplify path {} (strlenW path), ?_, by rw [hsimp]; exact htake3⟩
  unfold pathAllocCanonicalize
  rw [if_neg (by decide), if_neg (by rw [hlenEq]; simp; omega)]
  simp
  intro h1 h2 h3
  exact absurd h1 (by omega)

/-- Witness for the C3 amended theorem at c = 67 ('C'), k = 1, tail = "x". -/
theorem pathAllocCanonicalize_root_preserved_drive_witness :
    ∃ r, pathAllocCanonicalize (67 :: 58 :: 92 :: (dotdotSegs 1 ++ wstr "x")) {} = .ok r
      ∧ r.take 3 = [67, 58, 92] :=
  pathAllocCanonicalize_root_preserved_drive 67 1 (wstr "x") (by decide) (by decide) (by decide)

theorem strncmpiAt_cons_step {s : List Nat} {i p : Nat} {ps : List Nat}
    (h : toupperW (s.getD i 0) = toupperW p) :
    strncmpiAt s i (p :: ps) = strncmpiAt s (i + 1) ps := by
  simp only [strncmpiAt]
  rw [decide_eq_true h]
  simp

theorem strncmpAt_cons_step {s : List Nat} {i p : Nat} {ps : List Nat}
    (h : s.getD i 0 = p) :
    strncmpAt s i (p :: ps) = strncmpAt s (i + 1) ps := by
  simp only [strncmpAt]
  rw [decide_eq_true h]
  simp

theorem writeList_replicate {xs : List Nat} {L : Nat} (h : xs.length ≤ L) :
    writeList (List.replicate L 0) 0 xs = xs ++ List.replicate (L - xs.length) 0 := by
  unfold writeList
  simp only [List.take_zero, List.nil_append, List.length_replicate, Nat.zero_add, Nat.sub_zero,
    List.drop_replicate]
  rw [List.take_of_length_le (by simp only [List.length_append, List.length_replicate]; omega)]

theorem getD_take_append_lt {r : List Nat} {m i L : Nat} (him : i < m) (hm : m ≤ r.length) :
    (r.take m ++ List.replicate L 0).getD i 0 = r.getD i 0 := by
  rw [List.getD_append _ _ _ _ (by simp only [List.length_take]; omega),
    List.getD_eq_getElem _ _ (by simp only [List.length_take]; omega),
    List.getD_eq_getElem _ _ (by omega), List.getElem_take]

theorem getD_take_append_ge {r : List Nat} {m i L : Nat} (him : m ≤ i) (hm : m ≤ r.length) :
    (r.take m ++ List.replicate L 0).getD i 0 = 0 := by
  rw [List.getD_append_right _ _ _ _ (by simp only [List.length_take]; omega),
    List.getD_eq_getElem?_getD, List.getElem?_getD_replicate_default_eq]

theorem strip_sFalse_of {buf : List Nat} {size : Nat}
    (hsz : ¬(size = 0 ∨ size > 32768))
    (hunc : is_prefixed_unc buf = false) (hdisk : is_prefixed_disk buf = false) :
    pathCchStripPrefixW buf size = (.sFalse, buf) := by
  unfold pathCchStripPrefixW
  rw [if_neg (by simpa using hsz), if_neg (by simp [hunc]), if_neg (by simp [hdisk])]

theorem unc_disk_false_at0 {s : List Nat} (h : toupperW (s.getD 0 0) ≠ 92) :
    is_prefixed_unc s = false ∧ is_prefixed_disk s = false := by
  constructor
  · unfold is_prefixed_unc strncmpiW_eq
    rw [wstr_unc_pat, strncmpiAt_cons_false (by simpa using h)]
  · unfold is_prefixed_disk strncmpW_eq
    rw [wstr_disk_pat, strncmpAt_cons_false (fun he => h (by rw [he]; decide))]
    simp

theorem unc_disk_false_at1 {s : List Nat} (h0 : s.getD 0 0 = 92)
    (h1 : toupperW (s.getD 1 0) ≠ 92) :
    is_prefixed_unc s = false ∧ is_prefixed_disk s = false := by
  constructor
  · unfold is_prefixed_unc strncmpiW_eq
    rw [wstr_unc_pat, strncmpiAt_cons_step (by rw [h0]),
      strncmpiAt_cons_false (by simpa using h1)]
  · unfold is_prefixed_disk strncmpW_eq
    rw [wstr_disk_pat, strncmpAt_cons_step h0,
      strncmpAt_cons_false (fun he => h1 (by rw [he]; decide))]
    simp

theorem unc_disk_false_at2 {s : List Nat} (h0 : s.getD 0 0 = 92)
    (h1 : s.getD 1 0 = 92) (h2 : toupperW (s.getD 2 0) ≠ 63) :
    is_prefixed_unc s = false ∧ is_prefixed_disk s = false := by
  constructor
  · unfold is_prefixed_unc strncmpiW_eq
    rw [wstr_unc_pat, strncmpiAt_cons_step (by rw [h0]),
      strncmpiAt_cons_step (by rw [h1]),
      strncmpiAt_cons_false (by simpa using h2)]
  · unfold is_prefixed_disk strncmpW_eq
    rw [wstr_disk_pat, strncmpAt_cons_step h0, strncmpAt_cons_step h1,
      strncmpAt_cons_false (fun he => h2 (by rw [he]; decide))]
    simp

theorem canonLoop_copy (flags : PathFlags) :
    ∀ (fuel : Nat) (src buf : List Nat) (dst : Nat) (re : Option Nat),
      (0 : Nat) ∉ src → (46 : Nat) ∉ src → src.length ≤ fuel →
      dst + src.length ≤ buf.length →
      canonLoop flags fuel src buf dst re
        = (buf.take dst ++ src ++ buf.drop (dst + src.length), dst + src.length) := by
  intro fuel
  induction fuel with
  | zero =>
    intro src buf dst re h0 h46 hf hb
    have hsrc : src = [] := List.eq_nil_of_length_eq_zero (Nat.le_zero.mp hf)
    subst hsrc
    simp [canonLoop, List.take_append_drop]
  | succ fuel ih =>
    intro src buf dst re h0 h46 hf hb
    match src with
    | [] => simp [canonLoop, List.take_append_drop]
    | c :: rest =>
      have hc0 : c ≠ 0 := fun h => h0 (by simp [h])
      have hc46 : c ≠ 46 := fun h => h46 (by simp [h])
      have hdlt : dst < buf.length := by
        simp only [List.length_cons] at hb; omega
      simp only [canonLoop]
      rw [if_neg hc0, if_neg hc46]
      rw [ih rest (buf.set dst c) (dst + 1) re
        (fun h => h0 (List.mem_cons_of_mem _ h))
        (fun h => h46 (List.mem_cons_of_mem _ h))
        (by simp only [List.length_cons] at hf; omega)
        (by simp only [List.length_set, List.length_cons] at hb ⊢; omega)]
      have hset : buf.set dst c = buf.take dst ++ c :: buf.drop (dst + 1) :=
        List.set_eq_take_cons_drop c hdlt
      have hlt : (buf.take dst).length = dst := by
        simp only [List.length_take]; omega
      have htk : (buf.set dst c).take (dst + 1) = buf.take dst ++ [c] := by
        rw [hset, List.take_append_eq_append_take,
          List.take_of_length_le (by omega : (buf.take dst).length ≤ dst + 1)]
        congr 1
        rw [show dst + 1 - (buf.take dst).length = 1 by omega]
        simp
      have hdp : (buf.set dst c).drop (dst + 1 + rest.length)
          = buf.drop (dst + (rest.length + 1)) := by
        rw [hset, List.drop_append_eq_append_drop,
          List.drop_eq_nil_of_le (by omega : (buf.take dst).length ≤ dst + 1 + rest.length)]
        rw [show dst + 1 + rest.length - (buf.take dst).length = rest.length + 1 by omega]
        simp only [List.nil_append, List.drop_succ_cons, List.drop_drop]
        congr 1
        omega
      rw [htk, hdp]
      simp only [List.length_cons, Prod.mk.injEq]
      constructor
      · simp only [List.append_assoc, List.singleton_append]
      · omega

theorem pacSimplify_tail (r : List Nat) (m : Nat) (re : Option Nat)
    (hne : r ≠ []) (h0 : (0 : Nat) ∉ r) (h46 : (46 : Nat) ∉ r) (hm : m ≤ r.length) :
    (let res := canonLoop {} ((r.drop m).length + 1) (r.drop m)
        (r.take m ++ List.replicate (strlenW r + 6 - m) 0) m re
     let s := strTrunc (res.1.set res.2 0)
     if s = [] then [92] else s) = r := by
  have hlenEq : strlenW r = r.length := strlenW_of_not_mem h0
  have htl : (r.take m).length = m := by simp only [List.length_take]; omega
  have hbl : (r.take m ++ List.replicate (strlenW r + 6 - m) 0).length = r.length + 6 := by
    simp only [List.length_append, List.length_replicate, htl]; omega
  rw [canonLoop_copy {} ((r.drop m).length + 1) (r.drop m)
    (r.take m ++ List.replicate (strlenW r + 6 - m) 0) m re
    (fun h => h0 (List.mem_of_mem_drop h))
    (fun h => h46 (List.mem_of_mem_drop h))
    (Nat.le_succ _)
    (by simp only [hbl, List.length_drop]; omega)]
  have hdl : m + (r.drop m).length = r.length := by
    simp only [List.length_drop]; omega
  have htk : (r.take m ++ List.replicate (strlenW r + 6 - m) 0).take m = r.take m := by
    rw [List.take_append_eq_append_take, List.take_of_length_le (by omega), htl]
    simp
  have hdp : (r.take m ++ List.replicate (strlenW r + 6 - m) 0).drop (m + (r.drop m).length)
      = List.replicate 6 0 := by
    rw [hdl, List.drop_append_eq_append_drop, List.drop_eq_nil_of_le (by omega),
      List.drop_replicate]
    rw [show strlenW r + 6 - m - (r.length - (r.take m).length) = 6 by rw [htl, hlenEq]; omega]
    simp
  rw [htk, hdp, hdl]
  have hbuf : r.take m ++ r.drop m ++ List.replicate 6 0 = r ++ List.replicate 6 0 := by
    rw [List.take_append_drop]
  have hset : (r.take m ++ r.drop m ++ List.replicate 6 0).set r.length 0
      = r ++ List.replicate 6 0 := by
    rw [hbuf, List.set_append, if_neg (by omega)]
    rw [show r.length - r.length = 0 by omega]
    rw [show (6 : Nat) = 5 + 1 from rfl, List.replicate_succ, List.set_cons_zero]
  dsimp only
  rw [hset]
  have hstr : strTrunc (r ++ List.replicate 6 0) = r := by
    unfold strTrunc
    rw [List.takeWhile_append]
    rw [if_pos (by
      rw [List.takeWhile_eq_self_iff.mpr]
      intro a ha
      have haz : a ≠ 0 := fun hz => h0 (hz ▸ ha)
      simp [haz])]
    rw [List.takeWhile_replicate]
    simp
  rw [hstr, if_neg hne]

theorem toupperW_ne_92_of_alpha {c : Nat} (hc : isalphaW c = true) : toupperW c ≠ 92 := by
  have h65 : 65 ≤ c ∧ c ≤ 90 ∨ 97 ≤ c ∧ c ≤ 122 := by
    simpa [isalphaW, Bool.or_eq_true, Bool.and_eq_true, decide_eq_true_eq] using hc
  unfold toupperW
  split <;> omega

theorem pacSimplify_identity (r : List Nat)
    (hne : r ≠ []) (h0 : (0 : Nat) ∉ r) (h46 : (46 : Nat) ∉ r)
    (hvol : is_prefixed_volume r = false)
    (hunc : is_prefixed_unc r = false) (hdisk : is_prefixed_disk r = false)
    (hlen : r.length ≤ 259) :
    pacSimplify r {} (strlenW r) = r := by
  have hlenEq : strlenW r = r.length := strlenW_of_not_mem h0
  have hsz : ¬(strlenW r + 6 = 0 ∨ strlenW r + 6 > 32768) := by
    rw [hlenEq]; omega
  by_cases h00 : r.getD 0 0 = 92
  · by_cases h01 : r.getD 1 0 = 92
    · -- root of the form double backslash: root_end = 1
      have hroot : get_root_end r = some 1 := by
        unfold get_root_end
        rw [hvol, hunc, hdisk, decide_eq_true h00, decide_eq_true h01]
        simp only [Bool.false_eq_true, if_false, Bool.and_self]
        rw [if_pos trivial]
      have hm : 2 ≤ r.length := getD_lt_length (by rw [h01]; omega)
      have hstrip : pathCchStripPrefixW
          (r.take 2 ++ List.replicate (strlenW r + 6 - 2) 0) (strlenW r + 6)
          = (.sFalse, r.take 2 ++ List.replicate (strlenW r + 6 - 2) 0) := by
        obtain ⟨hu, hd⟩ := unc_disk_false_at2
          (s := r.take 2 ++ List.replicate (strlenW r + 6 - 2) 0)
          (by rw [getD_take_append_lt (by omega) hm]; exact h00)
          (by rw [getD_take_append_lt (by omega) hm]; exact h01)
          (by rw [getD_take_append_ge (by omega) hm]; decide)
        exact strip_sFalse_of hsz hu hd
      have htlm : (r.take (1 + 1)).length = 2 := by
        simp only [List.length_take]; omega
      have hwl : writeList (List.replicate (strlenW r + 6) 0) 0 (r.take (1 + 1))
          = r.take 2 ++ List.replicate (strlenW r + 6 - 2) 0 := by
        rw [writeList_replicate (by rw [htlm]; omega), htlm]
      unfold pacSimplify
      rw [hroot]
      simp only [hwl, hstrip]
      exact pacSimplify_tail r 2 (some 1) hne h0 h46 hm
    · -- root a single backslash: root_end = 0
      have hroot : get_root_end r = some 0 := by
        unfold get_root_end
        rw [hvol, hunc, hdisk, decide_eq_false h01]
        simp only [Bool.false_eq_true, if_false, Bool.and_false]
        rw [if_pos h00]
      have hm : 1 ≤ r.length := getD_lt_length (by rw [h00]; omega)
      have hstrip : pathCchStripPrefixW
          (r.take 1 ++ List.replicate (strlenW r + 6 - 1) 0) (strlenW r + 6)
          = (.sFalse, r.take 1 ++ List.replicate (strlenW r + 6 - 1) 0) := by
        obtain ⟨hu, hd⟩ := unc_disk_false_at1
          (s := r.take 1 ++ List.replicate (strlenW r + 6 - 1) 0)
          (by rw [getD_take_append_lt (by omega) hm]; exact h00)
          (by rw [getD_take_append_ge (by omega) hm]; decide)
        exact strip_sFalse_of hsz hu hd
      have htlm : (r.take (0 + 1)).length = 1 := by
        simp only [List.length_take]; omega
      have hwl : writeList (List.replicate (strlenW r + 6) 0) 0 (r.take (0 + 1))
          = r.take 1 ++ List.replicate (strlenW r + 6 - 1) 0 := by
        rw [writeList_replicate (by rw [htlm]; omega), htlm]
      unfold pacSimplify
      rw [hroot]
      simp only [hwl, hstrip]
      exact pacSimplify_tail r 1 (some 0) hne h0 h46 hm
  · by_cases hal : (isalphaW (r.getD 0 0) && r.getD 1 0 = 58) = true
    · have halpha : isalphaW (r.getD 0 0) = true := by
        simp only [Bool.and_eq_true] at hal; exact hal.1
      have h58 : r.getD 1 0 = 58 := by
        simp only [Bool.and_eq_true, decide_eq_true_eq] at hal; exact hal.2
      have hm2 : 2 ≤ r.length := getD_lt_length (by rw [h58]; omega)
      by_cases h2 : r.getD 2 0 = 92
      · -- drive-absolute root: root_end = 2
        have hroot : get_root_end r = some 2 := by
          unfold get_root_end
          rw [hvol, hunc, hdisk, decide_eq_false h00, hal]
          simp only [Bool.false_eq_true, if_false, Bool.false_and]
          rw [if_neg h00, if_pos trivial, if_pos h2]
        have hm : 3 ≤ r.length := getD_lt_length (by rw [h2]; omega)
        have hstrip : pathCchStripPrefixW
            (r.take 3 ++ List.replicate (strlenW r + 6 - 3) 0) (strlenW r + 6)
            = (.sFalse, r.take 3 ++ List.replicate (strlenW r + 6 - 3) 0) := by
          obtain ⟨hu, hd⟩ := unc_disk_false_at0
            (s := r.take 3 ++ List.replicate (strlenW r + 6 - 3) 0)
            (by rw [getD_take_append_lt (by omega) hm]
                exact toupperW_ne_92_of_alpha halpha)
          exact strip_sFalse_of hsz hu hd
        have htlm : (r.take (2 + 1)).length = 3 := by
          simp only [List.length_take]; omega
        have hwl : writeList (List.replicate (strlenW r + 6) 0) 0 (r.take (2 + 1))
            = r.take 3 ++ List.replicate (strlenW r + 6 - 3) 0 := by
          rw [writeList_replicate (by rw [htlm]; omega), htlm]
        unfold pacSimplify
        rw [hroot]
        simp only [hwl, hstrip]
        exact pacSimplify_tail r 3 (some 2) hne h0 h46 hm
      · -- drive-relative root: root_end = 1
        have hroot : get_root_end r = some 1 := by
          unfold get_root_end
          rw [hvol, hunc, hdisk, decide_eq_false h00, hal]
          simp only [Bool.false_eq_true, if_false, Bool.false_and]
          rw [if_neg h00, if_pos trivial, if_neg h2]
        have hstrip : pathCchStripPrefixW
            (r.take 2 ++ List.replicate (strlenW r + 6 - 2) 0) (strlenW r + 6)
            = (.sFalse, r.take 2 ++ List.replicate (strlenW r + 6 - 2) 0) := by
          obtain ⟨hu, hd⟩ := unc_disk_false_at0
            (s := r.take 2 ++ List.replicate (strlenW r + 6 - 2) 0)
            (by rw [getD_take_append_lt (by omega) hm2]
                exact toupperW_ne_92_of_alpha halpha)
          exact strip_sFalse_of hsz hu hd
        have htlm : (r.take (1 + 1)).length = 2 := by
          simp only [List.length_take]; omega
        have hwl : writeList (List.replicate (strlenW r + 6) 0) 0 (r.take (1 + 1))
            = r.take 2 ++ List.replicate (strlenW r + 6 - 2) 0 := by
          rw [writeList_replicate (by rw [htlm]; omega), htlm]
        unfold pacSimplify
        rw [hroot]
        simp only [hwl, hstrip]
        exact pacSimplify_tail r 2 (some 1) hne h0 h46 hm2
    · -- no root
      have hroot : get_root_end r = none := by
        have halF : (isalphaW (r.getD 0 0) && r.getD 1 0 = 58) = false :=
          Bool.eq_false_iff.mpr hal
        unfold get_root_end
        rw [hvol, hunc, hdisk, decide_eq_false h00, halF]
        simp only [Bool.false_eq_true, if_false, Bool.false_and]
        rw [if_neg h00]
      unfold pacSimplify
      rw [hroot]
      exact pacSimplify_tail r 0 none hne h0 h46 (Nat.zero_le _)

/-- C8 counterexample: canonicalization under default flags is not idempotent.
"a..." canonicalizes to "a..", but canonicalizing "a.." again gives "a"
(the trailing-dot trimming of kept ".." segments is not stable). -/
theorem pathAllocCanonicalize_idempotent_counterexample :
    pathAllocCanonicalize (wstr "a...") {} = .ok (wstr "a..")
    ∧ pathAllocCanonicalize (wstr "a..") {} = .ok (wstr "a")
    ∧ wstr "a.." ≠ wstr "a" :=
  ⟨by rfl, by rfl, by decide⟩

/-- C8 (amended): under default flags, canonicalization is the identity on
every nonempty, NUL-free, dot-free input without a device (`\\?\`-style)
prefix and within MAX_PATH, so canonicalize is idempotent on that class. -/
theorem pathAllocCanonicalize_identity_dotfree (r : List Nat)
    (hne : r ≠ []) (h0 : (0 : Nat) ∉ r) (h46 : (46 : Nat) ∉ r)
    (hvol : is_prefixed_volume r = false) (hunc : is_prefixed_unc r = false)
    (hdisk : is_prefixed_disk r = false) (hlen : r.length ≤ 259) :
    pathAllocCanonicalize r {} = .ok r := by
  have hlenEq : strlenW r = r.length := strlenW_of_not_mem h0
  unfold pathAllocCanonicalize
  rw [if_neg (by decide), if_neg (by rw [hlenEq]; simp; omega)]
  have hs := pacSimplify_identity r hne h0 h46 hvol hunc hdisk hlen
  simp only [show (if ({} : PathFlags).ensureExtended then
      { ({} : PathFlags) with doNotNormalize := true } else ({} : PathFlags))
      = ({} : PathFlags) from rfl]
  simp only [hs]
  simp
  intro h1 h2 h3
  exact absurd h1 (by omega)

/-- Witness for the C8 amended theorem at the input "C:\ab". -/
theorem pathAllocCanonicalize_identity_dotfree_witness :
    pathAllocCanonicalize (wstr "C:\\ab") {} = .ok (wstr "C:\\ab") :=
  pathAllocCanonicalize_identity_dotfree (wstr "C:\\ab") (by decide) (by decide)
    (by decide) (by decide) (by decide) (by decide) (by decide)

/-- Witness for the C6 amended theorem at the input "C:\a" with default flags. -/
theorem pathAllocCanonicalize_promotion_rule_witness :
    pathAllocCanonicalize (wstr "C:\\a") {} =
      .ok (let flags := if ({} : PathFlags).ensureExtended then
              { ({} : PathFlags) with doNotNormalize := true } else ({} : PathFlags)
           let s := pacSimplify (wstr "C:\\a") flags (strlenW (wstr "C:\\a"))
           let s2 := if extendedPromotionCond s {}
              then 92 :: 92 :: 63 :: 92 :: s else s
           if ({} : PathFlags).ensureTrailing then
              (pathCchAddBackslashW s2 ((strlenW (wstr "C:\\a") + 6) * 2)).2 else s2) :=
  pathAllocCanonicalize_promotion_rule (wstr "C:\\a") {} (by decide) (by decide)

/-- C1 counterexample: on "HTTP://A:B@Host:80/p/../q" canonicalize_url
(default flags) returns the input unchanged, not
"http://A:B@Host:80/q": the scheme-slash prefix test (`memcmp` against
"http:") is case-sensitive, and the `@` aborts the host scan (state 5)
into the verbatim-copy state 3, so nothing is lowercased and `/p/../q`
is not collapsed. -/
theorem urlCanonicalize_http_counterexample :
    urlCanonicalizeW (wstr "HTTP://A:B@Host:80/p/../q") {}
      = .ok (wstr "HTTP://A:B@Host:80/p/../q")
    ∧ wstr "HTTP://A:B@Host:80/p/../q" ≠ wstr "http://A:B@Host:80/q" :=
  ⟨by rfl, by decide⟩

/-- C1 (amended): canonicalize_url (UrlCanonicalizeW, default flags) maps
"HTTP://A:B@Host:80/p/../q" to itself: schemes are never lowercased, and a
user-info `@` in the authority drops the parser into the verbatim-copy
state, so the path is not simplified either.  (Without user-info the dot
removal does run: "http://a/p/../q" becomes "http://a/q".) -/
theorem urlCanonicalize_http_userinfo_identity :
    urlCanonicalizeW (wstr "HTTP://A:B@Host:80/p/../q") {}
      = .ok (wstr "HTTP://A:B@Host:80/p/../q")
    ∧ urlCanonicalizeW (wstr "http://a/p/../q") {} = .ok (wstr "http://a/q") :=
  ⟨by rfl, by rfl⟩

/-- `parse_url_host` never touches the user-info and password fields, and
records the hostname span as starting at its entry offset. -/
theorem parse_url_host_fields (url : List Nat) (pu : ParsedUrl) (w : Nat) :
    (parse_url_host url pu w).username = pu.username
    ∧ (parse_url_host url pu w).username_len = pu.username_len
    ∧ (parse_url_host url pu w).password = pu.password
    ∧ (parse_url_host url pu w).password_len = pu.password_len
    ∧ (parse_url_host url pu w).hostname = some w
    ∧ (parse_url_host url pu w).hostname_len = hostScanLen url w := by
  unfold parse_url_host
  dsimp only
  split <;> split <;> (try split) <;> simp

/-- C7: in `parse_url`, with a valid scheme followed by `//`, a user-info
token followed by `:` and a password token not followed by `@`, both
user-info and password are discarded (NULL spans of length 0) and the
host/port scan restarts at the very offset where the user-info scan
started. -/
theorem parse_url_discards_userinfo (url : List Nat)
    (hs : url.getD (schemeScanLen url) 0 = 58)
    (h2 : url.getD (schemeScanLen url + 1) 0 = 47
      ∧ url.getD (schemeScanLen url + 2) 0 = 47)
    (hc : url.getD (schemeScanLen url + 3
      + userpassScanLen url (schemeScanLen url + 3)) 0 = 58)
    (hp : url.getD (schemeScanLen url + 3
      + userpassScanLen url (schemeScanLen url + 3) + 1
      + userpassScanLen url (schemeScanLen url + 3
        + userpassScanLen url (schemeScanLen url + 3) + 1)) 0 ≠ 64) :
    ∃ pu, parse_url url = .ok pu
      ∧ pu.username = none ∧ pu.username_len = 0
      ∧ pu.password = none ∧ pu.password_len = 0
      ∧ pu.hostname = some (schemeScanLen url + 3)
      ∧ pu.hostname_len = hostScanLen url (schemeScanLen url + 3) := by
  refine ⟨parse_url_host url
    { scheme := 0, scheme_len := schemeScanLen url } (schemeScanLen url + 3),
    ?_, ?_, ?_, ?_, ?_, ?_, ?_⟩
  · unfold parse_url
    rw [if_neg (fun h => h hs), if_neg (fun h => h h2), if_pos hc, if_neg hp]
  all_goals
    obtain ⟨u1, u2, p1, p2, h1, h2l⟩ := parse_url_host_fields url
      { scheme := 0, scheme_len := schemeScanLen url } (schemeScanLen url + 3)
    first
      | exact u1 | exact u2 | exact p1 | exact p2 | exact h1 | exact h2l

/-- Witness for C7 at "http://a:b/c" (user token "a", password token "b"
followed by `/`, not `@`). -/
theorem parse_url_discards_userinfo_witness :
    ∃ pu, parse_url (wstr "http://a:b/c") = .ok pu
      ∧ pu.username = none ∧ pu.username_len = 0
      ∧ pu.password = none ∧ pu.password_len = 0
      ∧ pu.hostname = some (schemeScanLen (wstr "http://a:b/c") + 3)
      ∧ pu.hostname_len
        = hostScanLen (wstr "http://a:b/c") (schemeScanLen (wstr "http://a:b/c") + 3) :=
  parse_url_discards_userinfo (wstr "http://a:b/c") (by decide)
    (by decide) (by decide) (by decide)

/-- C9 counterexample: escape then unescape (flags 0 on both sides) is not
the identity on percent-free URLs: the http scheme sets
`WINE_URL_BASH_AS_SLASH`, so "http://a\b" escapes to "http://a/b", which
unescapes to itself. -/
theorem urlEscape_unescape_counterexample :
    urlUnescapeW (urlEscapeW (wstr "http://a\\b") {}) {} = wstr "http://a/b"
    ∧ (37 : Nat) ∉ wstr "http://a\\b"
    ∧ wstr "http://a/b" ≠ wstr "http://a\\b" :=
  ⟨by rfl, by decide, by decide⟩

/-- A unit that `url_needs_escape` accepts (without the spaces-only,
percent and UTF-8 modes) fits in one byte, so its `%XY` escape is exact. -/
theorem url_needs_escape_le_255 {ch : Nat} {flags : UrlFlags} {intFlags : IntFlags}
    (hsp : flags.escapeSpacesOnly = false) (hpc : flags.escapePercent = false)
    (hutf : flags.escapeAsUtf8 = false)
    (h : url_needs_escape ch flags intFlags = true) : ch ≤ 255 := by
  by_contra hgt
  push_neg at hgt
  have halnum : isalnumW ch = false := by
    simp only [isalnumW, isalphaW, isdigitW, Bool.or_eq_false_iff,
      Bool.and_eq_false_iff, decide_eq_false_iff_not]
    omega
  unfold url_needs_escape at h
  rw [hsp, hpc, hutf, halnum] at h
  simp only [Bool.false_eq_true, if_false, Bool.false_and] at h
  rw [if_neg (by simp only [Bool.or_eq_true, Bool.and_eq_true, decide_eq_true_eq]; omega),
    if_neg (by simp only [Bool.or_eq_true, decide_eq_true_eq]; omega),
    if_neg (by omega), if_neg (by omega), if_neg (by omega)] at h
  exact Bool.false_ne_true h

/-- `hexDigit` of a nibble is a hex digit. -/
theorem isxdigitW_hexDigit {n : Nat} (h : n < 16) : isxdigitW (hexDigit n) = true := by
  unfold hexDigit isxdigitW isdigitW
  by_cases h10 : n < 10
  · rw [if_pos h10]
    simp only [Bool.or_eq_true, Bool.and_eq_true, decide_eq_true_eq]
    omega
  · rw [if_neg h10]
    simp only [Bool.or_eq_true, Bool.and_eq_true, decide_eq_true_eq]
    omega

/-- Decoding a `hexDigit` gives the nibble back. -/
theorem hexVal_hexDigit {x : Nat} (h : x < 16) : hexVal (hexDigit x) = x := by
  unfold hexDigit
  by_cases h10 : x < 10
  · rw [if_pos h10]
    unfold hexVal
    rw [if_pos (by simp only [Bool.and_eq_true, decide_eq_true_eq]; omega)]
    omega
  · rw [if_neg h10]
    unfold hexVal
    rw [if_neg (by simp only [Bool.and_eq_true, decide_eq_true_eq, not_and]; omega),
      if_pos (by simp only [Bool.and_eq_true, decide_eq_true_eq]; omega)]
    omega

/-- Decoding the two `hexDigits` of a byte gives the byte back. -/
theorem hexVal_hexDigit_byte {c : Nat} (h : c ≤ 255) :
    hexVal (hexDigit (c / 16 % 16)) * 16 + hexVal (hexDigit (c % 16)) = c := by
  rw [hexVal_hexDigit (Nat.mod_lt _ (by omega)), hexVal_hexDigit (Nat.mod_lt _ (by omega))]
  omega

/-- `UrlUnescapeW` passes a unit other than `%` straight through (default
flags). -/
theorem urlUnescapeRun_cons_ne37 {c : Nat} (hc : c ≠ 37) (L : List Nat) :
    urlUnescapeRun {} (c :: L) false = c :: urlUnescapeRun {} L false := by
  rw [urlUnescapeRun.eq_def]
  split
  · rename_i heq
    simp at heq
  · rename_i heq
    rw [List.cons.injEq] at heq
    exact absurd heq.1 hc
  · rename_i hno heq
    rw [List.cons.injEq] at heq
    obtain ⟨he1, he2⟩ := heq
    subst he1
    subst he2
    simp

/-- The escape loop of `UrlEscapeW` followed by `UrlUnescapeW` restores the
input from any position, when the input is NUL-free with no `%` and no `\`
and slash collapsing is off. -/
theorem unescape_escapeLoop (flags : UrlFlags) (intFlags : IntFlags)
    (schemeEnd : Nat) (url : List Nat)
    (hsp : flags.escapeSpacesOnly = false) (hpc : flags.escapePercent = false)
    (hutf : flags.escapeAsUtf8 = false)
    (hcoll : intFlags.collapseSlashes = false)
    (h37 : (37 : Nat) ∉ url) (h92 : (92 : Nat) ∉ url) (h0 : (0 : Nat) ∉ url) :
    ∀ fuel i stop, url.length - i ≤ fuel →
      urlUnescapeRun {} (urlEscapeLoop flags intFlags schemeEnd url fuel i stop) false
        = url.drop i := by
  intro fuel
  induction fuel with
  | zero =>
    intro i stop hf
    have hge : url.length ≤ i := by omega
    simp [urlEscapeLoop, urlUnescapeRun, List.drop_eq_nil_of_le hge]
  | succ fuel ih =>
    intro i stop hf
    by_cases hi : i < url.length
    · have hcur : url.getD i 0 = url[i] := List.getD_eq_getElem url 0 hi
      have hmem : url[i] ∈ url := List.getElem_mem hi
      have hnz : url.getD i 0 ≠ 0 := by
        rw [hcur]; exact fun he => h0 (he ▸ hmem)
      have hn37 : url.getD i 0 ≠ 37 := by
        rw [hcur]; exact fun he => h37 (he ▸ hmem)
      have hn92 : url.getD i 0 ≠ 92 := by
        rw [hcur]; exact fun he => h92 (he ▸ hmem)
      have hdrop : url.drop i = url.getD i 0 :: url.drop (i + 1) := by
        rw [hcur]
        exact List.drop_eq_getElem_cons hi
      have hbash : (if (decide (url.getD i 0 = 92) && intFlags.bashAsSlash
          && !(stop || (decide (url.getD i 0 = 35) && intFlags.stopOnHash)
            || (decide (url.getD i 0 = 63) && intFlags.stopOnQuestion))) = true
          then 47 else url.getD i 0) = url.getD i 0 :=
        if_neg (by rw [decide_eq_false hn92]; simp)
      simp only [urlEscapeLoop]
      rw [if_neg hnz, if_neg (by rw [hcoll]; simp), hbash]
      by_cases hesc : (url_needs_escape (url.getD i 0) flags intFlags
          && !(stop || (decide (url.getD i 0 = 35) && intFlags.stopOnHash)
            || (decide (url.getD i 0 = 63) && intFlags.stopOnQuestion))) = true
      · have hne : url_needs_escape (url.getD i 0) flags intFlags = true := by
          have h := hesc
          rw [Bool.and_eq_true] at h
          exact h.1
        have h255 : url.getD i 0 ≤ 255 := url_needs_escape_le_255 hsp hpc hutf hne
        rw [if_pos hesc]
        simp only [List.cons_append, List.nil_append]
        rw [urlUnescapeRun.eq_def]
        simp only []
        rw [if_pos (by
          rw [isxdigitW_hexDigit (by omega), isxdigitW_hexDigit (by omega)]
          simp)]
        rw [hexVal_hexDigit_byte h255, ih (i + 1) _ (by omega), hdrop]
      · rw [if_neg hesc]
        simp only [List.cons_append, List.nil_append]
        rw [urlUnescapeRun_cons_ne37 hn37, ih (i + 1) _ (by omega), hdrop]
    · have hge : url.length ≤ i := by omega
      have hz : url.getD i 0 = 0 := List.getD_eq_default _ _ hge
      simp only [urlEscapeLoop]
      rw [if_pos hz]
      simp [urlUnescapeRun, List.drop_eq_nil_of_le hge]

/-- C9 (amended): escape-then-unescape with flags 0 is the identity on
NUL-free URLs that contain no `%` and no `\` and whose scheme does not put
`UrlEscapeW` into slash-collapse mode (the `file` scheme): a `\` would be
folded to `/` first (http/https/file), and `file:` URLs get their slashes
collapsed, so those inputs are excluded. -/
theorem urlEscape_unescape_roundtrip (url : List Nat)
    (h37 : (37 : Nat) ∉ url) (h92 : (92 : Nat) ∉ url) (h0 : (0 : Nat) ∉ url)
    (hcoll : (urlEscapeSetup url {}).2.1.collapseSlashes = false) :
    urlUnescapeW (urlEscapeW url {}) {} = url := by
  unfold urlEscapeW urlUnescapeW
  rcases hsetup : urlEscapeSetup url {} with ⟨flags, intFlags, schemeEnd⟩
  have hflags : flags = { dontEscapeExtraInfo := true } := by
    have h1 : (urlEscapeSetup url {}).1 = { dontEscapeExtraInfo := true } := rfl
    rw [hsetup] at h1
    exact h1
  rw [hsetup] at hcoll
  subst hflags
  rw [unescape_escapeLoop _ _ _ _ rfl rfl rfl hcoll h37 h92 h0 _ 0 false (by omega)]
  exact List.drop_zero url

/-- Witness for the C9 amended theorem at "http://a b" (the space escapes
to %20 and unescapes back). -/
theorem urlEscape_unescape_roundtrip_witness :
    ((37 : Nat) ∉ wstr "http://a b" ∧ (92 : Nat) ∉ wstr "http://a b"
      ∧ (0 : Nat) ∉ wstr "http://a b"
      ∧ (urlEscapeSetup (wstr "http://a b") {}).2.1.collapseSlashes = false)
    ∧ urlUnescapeW (urlEscapeW (wstr "http://a b") {}) {} = wstr "http://a b" :=
  ⟨⟨by decide, by decide, by decide, by decide⟩,
    urlEscape_unescape_roundtrip (wstr "http://a b") (by decide) (by decide)
      (by decide) (by decide)⟩

/-- Appending never changes an already-filled prefix. -/
theorem take_append_of_le {l x : List Nat} {n : Nat} (h : n ≤ l.length) :
    (l ++ x).take n = l.take n := by
  rw [List.take_append_eq_append_take, show n - l.length = 0 by omega]
  simp

/-- Setting a cell at or past `n` never changes the first `n` units. -/
theorem take_set_of_le {l : List Nat} {i n a : Nat} (h : n ≤ i) :
    (l.set i a).take n = l.take n := by
  rw [List.set_take, List.set_eq_of_length_le (by simp [List.length_take]; omega)]

/-- The `/../` back-up loop of `UrlCanonicalizeW` state 6 never truncates
back into the first `root` units and keeps the buffer at least `root + 1`
units long. -/
theorem urlCDots_take (slash : Nat) (url : List Nat) (root n : Nat)
    (hn : n ≤ root) :
    ∀ fuel i buf, root + 1 ≤ buf.length →
      (urlCDots slash url root fuel i buf).2.take n = buf.take n
      ∧ root + 1 ≤ (urlCDots slash url root fuel i buf).2.length := by
  intro fuel
  induction fuel with
  | zero =>
    intro i buf hb
    exact ⟨rfl, hb⟩
  | succ fuel ih =>
    intro i buf hb
    simp only [urlCDots]
    split
    · split
      · exact ih (i + 2) buf hb
      · split
        · split
          · rename_i off hoff
            have hlen : root + 1 ≤ ((buf.set (buf.length - 1) 0).take (root + off + 1)).length := by
              simp only [List.length_take, List.length_set]
              omega
            obtain ⟨h1, h2⟩ := ih _ _ hlen
            refine ⟨?_, h2⟩
            rw [h1, List.take_take, show n ⊓ (root + off + 1) = n by omega,
              take_set_of_le (by omega)]
          · refine ⟨?_, ?_⟩
            · simp only []
              rw [take_set_of_le (by simp [List.length_set]; omega)]
              rw [take_set_of_le (by omega)]
            · simp only [List.length_set]
              omega
        · exact ⟨rfl, hb⟩
    · exact ⟨rfl, hb⟩

/-- The state-6 segment loop preserves the first `n ≤ root` units. -/
theorem urlCSeg_take (slash : Nat) (url : List Nat) (root n : Nat)
    (hn : n ≤ root) :
    ∀ fuel i buf, root + 1 ≤ buf.length →
      (urlCSeg slash url root fuel i buf).take n = buf.take n := by
  intro fuel
  induction fuel with
  | zero => intro i buf hb; rfl
  | succ fuel ih =>
    intro i buf hb
    simp only [urlCSeg]
    split
    · rfl
    · split
      · exact take_append_of_le (by omega)
      · rename_i m hm
        have hlenA : root + 1
            ≤ (buf ++ (url.drop i).take (m - i)
              ++ [if slash ≠ 0 then slash else url.getD m 0]).length := by
          simp only [List.length_append, List.length_take]
          omega
        obtain ⟨hd1, hd2⟩ := urlCDots_take slash url root n hn fuel (m + 1) _ hlenA
        rcases hdots : urlCDots slash url root fuel (m + 1)
            (buf ++ (url.drop i).take (m - i)
              ++ [if slash ≠ 0 then slash else url.getD m 0])
          with ⟨i2, buf2⟩
        rw [hdots] at hd1 hd2
        dsimp only at hd1 hd2 ⊢
        rw [ih i2 buf2 hd2, hd1,
          take_append_of_le (by simp only [List.length_append]; omega),
          take_append_of_le (by omega)]

/-- States 6, 5 and 3 of `UrlCanonicalizeW` cannot touch the first `n`
units of a buffer longer than `n`. -/
theorem urlCState6_take (flags : UrlFlags) (slash : Nat) (url : List Nat)
    (i : Nat) (buf : List Nat) (n : Nat) (h : n + 1 ≤ buf.length) :
    (urlCState6 flags slash url i buf).take n = buf.take n := by
  unfold urlCState6
  split
  · rfl
  · split
    · exact take_append_of_le (by omega)
    · exact urlCSeg_take slash url (buf.length - 1) n (by omega) _ i buf (by omega)

/-- State 5 preserves a filled prefix of the buffer. -/
theorem urlCState5_take (flags : UrlFlags) (slash : Nat) (url : List Nat)
    (i : Nat) (buf : List Nat) (n : Nat) (h : n ≤ buf.length) :
    (urlCState5 flags slash url i buf).take n = buf.take n := by
  unfold urlCState5
  split
  · rfl
  · split
    · exact take_append_of_le h
    · rename_i hz hsl
      have hsl2 : url.getD i 0 = 47 ∨ url.getD i 0 = 92 := by
        by_contra hcon
        push_neg at hcon
        exact hsl (by rw [decide_eq_true hcon.1, decide_eq_true hcon.2]; rfl)
      have hne : (url.drop i).takeWhile (fun c => c = 47 || c = 92) ≠ [] := by
        have hi : i < url.length := getD_lt_length hz
        have hdrop : url.drop i = url.getD i 0 :: url.drop (i + 1) := by
          rw [List.getD_eq_getElem url 0 hi]
          exact List.drop_eq_getElem_cons hi
        rw [hdrop, List.takeWhile_cons,
          if_pos (by rcases hsl2 with h | h <;> rw [decide_eq_true h] <;> simp only [Bool.true_or, Bool.or_true])]
        simp
      rw [urlCState6_take _ _ _ _ _ _ (by
        simp only [List.length_append, List.length_map]
        have := List.length_pos.mpr hne
        omega)]
      exact take_append_of_le h

/-- C10: `UrlCanonicalizeW` classifies its (tab-stripped) input as an
implicit local file path solely by `url[1] == ':'`: for every such input —
no letter requirement on the first unit — the simplification stage
prepends the "file:///" prefix (under default flags), and e.g. the
non-drive input "1:x" canonicalizes to "file:///1:x". -/
theorem urlCanonicalize_implicit_file :
    (∀ url : List Nat, (url.filter (fun c => c ≠ 9)).getD 1 0 = 58 →
      ((urlCanonSimplify {} (url.filter (fun c => c ≠ 9))).1).take 8 = wstr "file:///")
    ∧ urlCanonicalizeW (wstr "1:x") {} = .ok (wstr "file:///1:x") := by
  constructor
  · intro url hcolon
    simp only [urlCanonSimplify]
    rw [if_pos hcolon]
    split
    all_goals
      rw [if_neg (by simp)]
      dsimp only
      rw [urlCState5_take _ _ _ _ _ 8 (by decide)]
      rfl
  · rfl

/-- Witness for the C10 universal part at "*:z" (first unit not a letter). -/
theorem urlCanonicalize_implicit_file_witness :
    ((urlCanonSimplify {} ((wstr "*:z").filter (fun c => c ≠ 9))).1).take 8
      = wstr "file:///" :=
  urlCanonicalize_implicit_file.1 (wstr "*:z") (by decide)
